import Mathlib

/-!
Verification of the kubefs core: the arena-backed inode tree (src/tree.rs),
the virtual-filesystem schema and reconciler (src/vfs.rs) and the FUSE
protocol adapter (src/fuse.rs), shallowly embedded in Lean 4.

Modelling conventions:
* `NodeId` is a `Nat`.  The Rust `NodeId` wraps a `NonZeroU64` and
  `NodeId::new` panics (via `unwrap`) on zero; panics are modelled as
  `Except.error` values that propagate through every caller, exactly as a
  Rust panic unwinds through the call stack.
* The arena's `HashMap<NodeId, Node>` is modelled as an association list.
  The source never iterates the map (only `get` / `insert` / `remove` /
  `contains_key`), so the representation order is unobservable.  `insert` is
  modelled as `cons`, which has the map's replace semantics for `mlookup`
  (the new binding shadows any old one); in the source a key is only ever
  inserted once because ids are fresh.
* The id counter is an `AtomicU64` bumped with wrapping `fetch_add`.  We
  model it as an unbounded `Nat`: the two agree for fewer than 2^64
  insertions, and at the 2^64-th insertion the source panics inside
  `NodeId::new(0)` before any id could be reused, so no reachable behaviour
  distinguishes the models.
* `tree_walk_dfs` is an unbounded `while let` loop in Rust; it is modelled
  with explicit fuel `map.length + 1`.  On well-formed arenas (`WF`) the
  loop pops at most one stack entry per arena node plus the root, so this
  fuel is never exhausted and the model computes exactly what the source
  computes; on malformed arenas (cyclic `children_ids`) the source
  diverges, which the model maps to `none`.
* The kube client (src/client.rs) is an external collaborator: it is
  modelled as a record of call results (`namespaces`, `resources`), each an
  `Except` mirroring `anyhow::Result`.  The source calls `.unwrap()` on
  these results, so a provider error becomes a panic.
-/

namespace KubeFS

/-- NodeId doubles as the inode number; `NodeId::new` unwraps a `NonZeroU64`
and therefore panics on 0 (modelled as `Except.error`). -/
def NodeId.new (id : Nat) : Except String Nat :=
  if id = 0 then Except.error "NodeId.new: NonZeroU64::new(0).unwrap() panicked" else Except.ok id

/-- Node of `Arena<T>` (src/tree.rs): id, optional parent, ordered children,
payload. -/
structure ArenaNode (T : Type) where
  id : Nat
  parent_id : Option Nat
  children_ids : List Nat
  payload : T
deriving Repr, DecidableEq

/-- Association-list model of the arena's `HashMap<NodeId, Node<T>>`. -/
abbrev NodeMap (T : Type) := List (Nat × ArenaNode T)

/-- First-match association lookup, the model of `HashMap::get`. -/
def mlookup {T : Type} : NodeMap T → Nat → Option (ArenaNode T)
  | [], _ => none
  | (k, v) :: rest, key => if k = key then some v else mlookup rest key

/-- Model of `HashMap::remove`: drop every binding of the key. -/
def mremove {T : Type} (m : NodeMap T) (k : Nat) : NodeMap T :=
  m.filter (fun p => p.1 != k)

/-- Model of `HashMap::get_mut` followed by an in-place update of one node. -/
def mupdate {T : Type} (m : NodeMap T) (k : Nat) (f : ArenaNode T → ArenaNode T) : NodeMap T :=
  m.map (fun p => if p.1 = k then (p.1, f p.2) else p)

/-- Arena (src/tree.rs): the owning node store plus the id counter. -/
structure Arena (T : Type) where
  map : NodeMap T
  counter : Nat
deriving Repr, DecidableEq

namespace Arena

/-- `Arena::new`: empty map, counter starts at 1 (0 is reserved). -/
def new {T : Type} : Arena T := ⟨[], 1⟩

/-- `Arena::generate_id`: `fetch_add(1)` returns the old counter value. -/
def generate_id {T : Type} (a : Arena T) : Nat := a.counter

/-- `Arena::get`. -/
def get {T : Type} (a : Arena T) (node_id : Nat) : Option (ArenaNode T) :=
  mlookup a.map node_id

/-- `Arena::contains`. -/
def contains {T : Type} (a : Arena T) (node_id : Nat) : Bool :=
  (a.get node_id).isSome

/-- `Arena::add`: allocate an id, insert the node, and, if the parent exists,
append the new id to the parent's `children_ids`.  Returns the updated arena
and the new id. -/
def add {T : Type} (a : Arena T) (payload : T) (parent_id : Option Nat) : Arena T × Nat :=
  let id := a.generate_id
  let node : ArenaNode T := ⟨id, parent_id, [], payload⟩
  let m1 : NodeMap T := (id, node) :: a.map
  let m2 : NodeMap T :=
    match parent_id with
    | some pid => mupdate m1 pid (fun n => { n with children_ids := n.children_ids ++ [id] })
    | none => m1
  (⟨m2, a.counter + 1⟩, id)

/-- `Arena::get_children`: `none` if the parent is absent, otherwise the
resolvable children in order (unresolvable ids silently dropped). -/
def get_children {T : Type} (a : Arena T) (parent : Nat) : Option (List (ArenaNode T)) :=
  if a.contains parent = false then none
  else
    match a.get parent with
    | some node => some (node.children_ids.filterMap (fun c => a.get c))
    | none => none

/-- Loop body of `tree_walk_dfs`: the explicit stack is a list whose head is
the top (`pop_back`); pushing the children reversed one-by-one onto the back
is the same as prepending the children list, so the node's children are
visited left to right.  The `?` on `self.get(&node_id)` aborts the whole
walk with `none` when a popped id is missing.  `fuel` bounds the number of
loop iterations (see the header comment). -/
def dfsAux {T : Type} (m : NodeMap T) : Nat → List Nat → List Nat → Option (List Nat)
  | _, [], acc => some acc
  | 0, _ :: _, _ => none
  | fuel + 1, node_id :: rest, acc =>
    match mlookup m node_id with
    | none => none
    | some node => dfsAux m fuel (node.children_ids ++ rest) (acc ++ [node.id])

/-- `Arena::tree_walk_dfs`: iterative pre-order DFS from `node_id`; `none`
if the root is absent or the walk produced nothing. -/
def tree_walk_dfs {T : Type} (a : Arena T) (node_id : Nat) : Option (List Nat) :=
  if a.contains node_id = false then none
  else
    match dfsAux a.map (a.map.length + 1) [node_id] [] with
    | none => none
    | some it => if it.length = 0 then none else some it

/-- `Arena::delete_node`: compute the subtree via `tree_walk_dfs`, detach
`node_id` from its parent's children (`retain`), remove every listed node
from the map, and return the deletion list.  Returns the arena unchanged
with `none` when `node_id` is absent. -/
def delete_node {T : Type} (a : Arena T) (node_id : Nat) : Arena T × Option (List Nat) :=
  match a.get node_id with
  | none => (a, none)
  | some node =>
    match a.tree_walk_dfs node_id with
    | none => (a, none)
    | some deletion_list =>
      let m1 : NodeMap T :=
        match node.parent_id with
        | some pid =>
          mupdate a.map pid
            (fun pn => { pn with children_ids := pn.children_ids.filter (fun c => c != node_id) })
        | none => a.map
      let m2 : NodeMap T := deletion_list.foldl (fun mm i => mremove mm i) m1
      (⟨m2, a.counter⟩, some deletion_list)

/-- Sequence of `add` calls (payload, parent) pairs; returns the final arena
and the ids in the order they were issued. -/
def addSeq {T : Type} (a : Arena T) (ops : List (T × Option Nat)) : Arena T × List Nat :=
  ops.foldl (fun acc op => ((acc.1.add op.1 op.2).1, acc.2 ++ [(acc.1.add op.1 op.2).2])) (a, [])

end Arena

/-- Specification-side pre-order relation: `PreOrdF m roots out` holds when
`out` is the left-to-right pre-order listing of the forest whose roots are
`roots`, every visited id resolving in `m` and each node's children visited
in their stored (insertion) order.  The emitted element is the stored
`node.id` field, exactly what the source pushes onto its output. -/
inductive PreOrdF {T : Type} (m : NodeMap T) : List Nat → List Nat → Prop
  | nil : PreOrdF m [] []
  | cons {id : Nat} {rest l1 l2 : List Nat} (n : ArenaNode T) :
      mlookup m id = some n →
      PreOrdF m n.children_ids l1 →
      PreOrdF m rest l2 →
      PreOrdF m (id :: rest) (n.id :: (l1 ++ l2))

/-- Specification-side descendant relation: `Desc m r x` holds when `x` is
in the subtree rooted at `r` (reflexive, following `children_ids`). -/
inductive Desc {T : Type} (m : NodeMap T) : Nat → Nat → Prop
  | refl (id : Nat) : Desc m id id
  | step {id c x : Nat} (n : ArenaNode T) :
      mlookup m id = some n → c ∈ n.children_ids → Desc m c x → Desc m id x

/-- Pairwise independence of a root list: no two distinct roots share a
descendant. -/
def RootsIndep {T : Type} (m : NodeMap T) (s : List Nat) : Prop :=
  s.Pairwise (fun r r' => ∀ x, Desc m r x → Desc m r' x → False)

/-- Structural well-formedness of an arena, the invariants of spec §3:
unique keys, stored id matches the key, duplicate-free children, children
exist and point back to their parent, a stated parent exists and lists the
node among its children, ids are positive and below the counter, and every
child id is strictly greater than its parent's id (which rules out cycles).
All reachable arenas satisfy it. -/
def WF {T : Type} (a : Arena T) : Prop :=
  (a.map.map Prod.fst).Nodup ∧
  (∀ p ∈ a.map,
      p.2.id = p.1 ∧ p.2.children_ids.Nodup ∧ 0 < p.1 ∧ p.1 < a.counter ∧
      (∀ c ∈ p.2.children_ids,
          p.1 < c ∧ ∃ cn ∈ (mlookup a.map c).toList, cn.parent_id = some p.1) ∧
      (∀ q ∈ p.2.parent_id.toList, ∃ pn ∈ (mlookup a.map q).toList, p.1 ∈ pn.children_ids)) ∧
  0 < a.counter

instance {T : Type} [DecidableEq T] (a : Arena T) : Decidable (WF a) := by
  unfold WF
  infer_instance

/-! The kube virtual filesystem schema (src/vfs.rs). -/

/-- `fuser::FileType`, restricted to the two kinds the source produces. -/
inductive FileTypeT
  | Directory
  | RegularFile
deriving Repr, DecidableEq

/-- `fuser::FileAttr` with timestamps as abstract instants (`Nat`). -/
structure FileAttrT where
  ino : Nat
  size : Nat
  blocks : Nat
  atime : Nat
  mtime : Nat
  ctime : Nat
  crtime : Nat
  kind : FileTypeT
  perm : Nat
  nlink : Nat
  uid : Nat
  gid : Nat
  rdev : Nat
  blksize : Nat
  flags : Nat
deriving Repr, DecidableEq

/-- `kube::discovery::ApiResource` (the fields the source reads). -/
structure ApiResource where
  group : String
  version : String
  kind : String
  plural : String
deriving Repr, DecidableEq

/-- `kube::discovery::Scope`. -/
inductive Scope
  | Cluster
  | Namespaced
deriving Repr, DecidableEq

/-- `kube::discovery::ApiCapabilities` (only the scope is read). -/
structure ApiCapabilities where
  scope : Scope
deriving Repr, DecidableEq

/-- `kube::core::DynamicObject` as the source observes it: `namespace()`,
`uid()` (optional -- the source unwraps it), and `name_any()`.  `nsp` stands
for the Rust `namespace()` accessor (`namespace` is a Lean keyword). -/
structure DynamicObject where
  nsp : Option String
  uid : Option String
  name : String
deriving Repr, DecidableEq

/-- `KubeApiResourceNode` (src/vfs.rs): identity of one discovered API
resource kind inside a namespace. -/
structure KubeApiResourceNode where
  nsp : Option String
  group : String
  version : String
  kind : String
  plural : String
deriving Repr, DecidableEq

/-- `KubeApiResourceNode::name`: the plural if non-empty, else the kind. -/
def KubeApiResourceNode.name (n : KubeApiResourceNode) : String :=
  if n.plural ≠ "" then n.plural else n.kind

/-- `KubeResourceNode` (src/vfs.rs): identity of one concrete cluster
object. -/
structure KubeResourceNode where
  nsp : Option String
  uuid : String
  name : String
  kind : String
deriving Repr, DecidableEq

/-- `KubeResourceNode::new`: namespace is left `None`. -/
def KubeResourceNode.new (uuid name kind : String) : KubeResourceNode :=
  ⟨none, uuid, name, kind⟩

/-- `KubeResourceNode::from`: reads `namespace()`, `uid().unwrap()` (a panic
point when the object has no uid) and `name_any()`. -/
def KubeResourceNode.fromObj (obj : DynamicObject) (kind : String) : Except String KubeResourceNode :=
  match obj.uid with
  | none => Except.error "KubeResourceNode::from: uid().unwrap() panicked"
  | some u => Except.ok ⟨obj.nsp, u, obj.name, kind⟩

/-- `KubeFileNode` (src/vfs.rs): the closed tagged variant of node kinds. -/
inductive KubeFileNode
  | Virtual (name : String)
  | Context (name : String)
  | ClusterInfoFile
  | ApiResourceDirectory (api : KubeApiResourceNode)
  | ResourceDirectory (r : KubeResourceNode)
  | ResourceFile (r : KubeResourceNode)
  | LogFile (r : KubeResourceNode)
deriving Repr, DecidableEq

/-- `KubeFileNode::get_file_name`. -/
def KubeFileNode.get_file_name : KubeFileNode → String
  | .Virtual name => name
  | .Context name => name
  | .ClusterInfoFile => "cluster_info"
  | .ApiResourceDirectory api => api.name
  | .ResourceDirectory r => r.name
  | .ResourceFile r => r.name ++ ".yml"
  | .LogFile _ => "logs"

/-- `impl PartialEq for KubeFileNode`: semantic equality.  Directory-like
and virtual kinds compare structurally on their identity fields
(name, or group/version/kind); resource-backed kinds compare by `uuid`
alone. -/
def kubeFileNodeEq : KubeFileNode → KubeFileNode → Bool
  | .Virtual l, .Virtual r => l == r
  | .Virtual _, _ => false
  | .Context l, .Context r => l == r
  | .Context _, _ => false
  | .ClusterInfoFile, .ClusterInfoFile => true
  | .ClusterInfoFile, _ => false
  | .ApiResourceDirectory l, .ApiResourceDirectory r =>
      l.kind == r.kind && l.group == r.group && l.version == r.version
  | .ApiResourceDirectory _, _ => false
  | .ResourceDirectory l, .ResourceDirectory r => l.uuid == r.uuid
  | .ResourceDirectory _, _ => false
  | .ResourceFile l, .ResourceFile r => l.uuid == r.uuid
  | .ResourceFile _, _ => false
  | .LogFile l, .LogFile r => l.uuid == r.uuid
  | .LogFile _, _ => false

/-- Model of `KubeClient` (src/client.rs), an external collaborator: the
results its two listing calls produce.  `Except.error` mirrors a failed
`anyhow::Result`.  The client is read-only state from the core's
perspective, so each call deterministically returns the recorded value
(the source additionally caches responses, which only reinforces this). -/
structure KubeClient where
  namespaces : Except Unit (List DynamicObject)
  resources : String → ApiResource → Except Unit (List DynamicObject)

/-- `KubeVirtualFs` (src/vfs.rs): the client, the discovery result captured
at construction, the arena, and the startup instant. -/
structure KubeVirtualFs where
  kube_client : KubeClient
  api_resources : List (ApiResource × ApiCapabilities)
  arena_two : Arena KubeFileNode
  startup : Nat

namespace KubeVirtualFs

/-- `KubeVirtualFs::map_kube_file_to_attr`: the pure attribute projection.
Directory kinds get size 0, mode 0o755 and `Directory`; `ResourceFile` gets
the fixed placeholder size 10000, mode 0o655, uid 1000; `ClusterInfoFile`
and `LogFile` get size 10000, mode 0o655, uid 10000.  Every timestamp is
the process-startup instant. -/
def map_kube_file_to_attr (vfs : KubeVirtualFs) (node : ArenaNode KubeFileNode) : FileAttrT :=
  match node.payload with
  | .Virtual _ | .Context _ | .ApiResourceDirectory _ | .ResourceDirectory _ =>
    { ino := node.id, size := 0, blocks := 0,
      atime := vfs.startup, mtime := vfs.startup, ctime := vfs.startup, crtime := vfs.startup,
      kind := FileTypeT.Directory, perm := 0o755, nlink := 1,
      uid := 1000, gid := 1000, rdev := 0, blksize := 512, flags := 0 }
  | .ResourceFile _ =>
    { ino := node.id, size := 10000, blocks := 0,
      atime := vfs.startup, mtime := vfs.startup, ctime := vfs.startup, crtime := vfs.startup,
      kind := FileTypeT.RegularFile, perm := 0o655, nlink := 1,
      uid := 1000, gid := 1000, rdev := 0, blksize := 512, flags := 0 }
  | .ClusterInfoFile | .LogFile _ =>
    { ino := node.id, size := 10000, blocks := 0,
      atime := vfs.startup, mtime := vfs.startup, ctime := vfs.startup, crtime := vfs.startup,
      kind := FileTypeT.RegularFile, perm := 0o655, nlink := 1,
      uid := 10000, gid := 1000, rdev := 0, blksize := 512, flags := 0 }

/-- Kind classifier mirroring the three arms of the projection match. -/
inductive AttrClass
  | DirectoryKind
  | ResourceFileKind
  | InfoFileKind
deriving Repr, DecidableEq

/-- Which projection arm a payload selects. -/
def attrClassOf : KubeFileNode → AttrClass
  | .Virtual _ | .Context _ | .ApiResourceDirectory _ | .ResourceDirectory _ =>
      AttrClass.DirectoryKind
  | .ResourceFile _ => AttrClass.ResourceFileKind
  | .ClusterInfoFile | .LogFile _ => AttrClass.InfoFileKind

/-- The projection as an explicit table over (startup, id, kind class).
This is the specification's "attribute projection table". -/
def attrTable (startup id : Nat) : AttrClass → FileAttrT
  | AttrClass.DirectoryKind =>
    { ino := id, size := 0, blocks := 0,
      atime := startup, mtime := startup, ctime := startup, crtime := startup,
      kind := FileTypeT.Directory, perm := 0o755, nlink := 1,
      uid := 1000, gid := 1000, rdev := 0, blksize := 512, flags := 0 }
  | AttrClass.ResourceFileKind =>
    { ino := id, size := 10000, blocks := 0,
      atime := startup, mtime := startup, ctime := startup, crtime := startup,
      kind := FileTypeT.RegularFile, perm := 0o655, nlink := 1,
      uid := 1000, gid := 1000, rdev := 0, blksize := 512, flags := 0 }
  | AttrClass.InfoFileKind =>
    { ino := id, size := 10000, blocks := 0,
      atime := startup, mtime := startup, ctime := startup, crtime := startup,
      kind := FileTypeT.RegularFile, perm := 0o655, nlink := 1,
      uid := 10000, gid := 1000, rdev := 0, blksize := 512, flags := 0 }

/-- `KubeVirtualFs::get_leafs_for_node`: the desired children of a node, a
pure function of the node's payload dispatching to the client.  Every
`.unwrap()` of a provider result or a missing uid is a panic
(`Except.error`). -/
def get_leafs_for_node (vfs : KubeVirtualFs) (node : ArenaNode KubeFileNode) :
    Except String (List KubeFileNode) :=
  match node.payload with
  | .Context _ =>
    match vfs.kube_client.namespaces with
    | Except.error _ => Except.error "get_leafs_for_node: list_namespaces().unwrap() panicked"
    | Except.ok namespaces => do
      let pairs ← namespaces.mapM (fun nsObj =>
        match nsObj.uid with
        | none => Except.error "get_leafs_for_node: namespace.uid().unwrap() panicked"
        | some uuid =>
          let n := KubeResourceNode.new uuid nsObj.name "Namespace"
          Except.ok [KubeFileNode.ResourceDirectory n, KubeFileNode.ResourceFile n])
      Except.ok ([KubeFileNode.Virtual ".", KubeFileNode.Virtual "..",
                  KubeFileNode.ClusterInfoFile] ++ pairs.flatten)
  | .ResourceDirectory dir =>
    if dir.kind = "Namespace" then
      let scopedApis := (vfs.api_resources.filter (fun pc => pc.2.scope == Scope.Namespaced)).map Prod.fst
      Except.ok ([KubeFileNode.Virtual ".", KubeFileNode.Virtual ".."] ++
        scopedApis.map (fun api =>
          KubeFileNode.ApiResourceDirectory ⟨some dir.name, api.group, api.version, api.kind, api.plural⟩))
    else
      Except.ok [KubeFileNode.Virtual ".", KubeFileNode.Virtual ".."]
  | .ApiResourceDirectory api =>
    match vfs.api_resources.find? (fun pc =>
        pc.1.group == api.group && pc.1.kind == api.kind && pc.1.version == api.version) with
    | none => Except.error "get_leafs_for_node: api_resources find .unwrap() panicked"
    | some pc =>
      match api.nsp with
      | none => Except.error "get_leafs_for_node: api.namespace.unwrap() panicked"
      | some ns =>
        match vfs.kube_client.resources ns pc.1 with
        | Except.error _ => Except.error "get_leafs_for_node: list_resources().unwrap() panicked"
        | Except.ok objs => do
          let files ← objs.mapM (fun obj =>
            (KubeResourceNode.fromObj obj api.kind).map KubeFileNode.ResourceFile)
          Except.ok ([KubeFileNode.Virtual ".", KubeFileNode.Virtual ".."] ++ files)
  | _ => Except.ok []

/-- Pairs (id, payload) of the resolvable children of `id`, the source's
`old_leaf` binding. -/
def old_leaf_of (a : Arena KubeFileNode) (id : Nat) : List (Nat × KubeFileNode) :=
  ((a.get_children id).getD []).map (fun n => (n.id, n.payload))

/-- The reconciliation diff: `to_add` are desired entries with no
semantically equal counterpart among the actual children, `to_remove` the
ids of actual children with no counterpart in the desired list. -/
def reconcile_diff (new_leaf : List KubeFileNode) (old_leaf : List (Nat × KubeFileNode)) :
    List KubeFileNode × List Nat :=
  (new_leaf.filter (fun n => !(old_leaf.any (fun o => kubeFileNodeEq o.2 n))),
   (old_leaf.filter (fun o => !(new_leaf.any (fun n => kubeFileNodeEq n o.2)))).map Prod.fst)

/-- `KubeVirtualFs::sync_leafs_for_inode`: reconcile the children of
`inode` against the freshly computed desired list -- delete the subtrees of
removed entries, then add the new entries as children of `inode`.  A
missing node is a no-op; `NodeId::new(0)` and provider failures panic. -/
def sync_leafs_for_inode (vfs : KubeVirtualFs) (inode : Nat) : Except String KubeVirtualFs :=
  match NodeId.new inode with
  | Except.error e => Except.error e
  | Except.ok id =>
    match vfs.arena_two.get id with
    | none => Except.ok vfs
    | some node =>
      match vfs.get_leafs_for_node node with
      | Except.error e => Except.error e
      | Except.ok new_leaf =>
        let old_leaf := old_leaf_of vfs.arena_two id
        let diff := reconcile_diff new_leaf old_leaf
        let arena1 := diff.2.foldl (fun a i => (a.delete_node i).1) vfs.arena_two
        let arena2 := diff.1.foldl (fun a n => (a.add n (some id)).1) arena1
        Except.ok { vfs with arena_two := arena2 }

/-- `KubeVirtualFs::get_file`: name and projected attributes by inode. -/
def get_file (vfs : KubeVirtualFs) (inode : Nat) : Except String (Option (String × FileAttrT)) :=
  match NodeId.new inode with
  | Except.error e => Except.error e
  | Except.ok id =>
    match vfs.arena_two.get id with
    | some node => Except.ok (some (node.payload.get_file_name, vfs.map_kube_file_to_attr node))
    | none => Except.ok none

/-- `KubeVirtualFs::get_kube_manifest`: the byte content served for an
inode.  For a `ResourceFile` the source's manifest materialization is an
unimplemented TODO and it returns `Ok("")`; other kinds produce the inner
`anyhow` errors.  The outer `Except` is the panic channel of
`NodeId::new`. -/
def get_kube_manifest (vfs : KubeVirtualFs) (inode : Nat) : Except String (Except String String) :=
  match NodeId.new inode with
  | Except.error e => Except.error e
  | Except.ok id =>
    match vfs.arena_two.get id with
    | some node =>
      match node.payload with
      | .ResourceFile _ => Except.ok (Except.ok "")
      | _ => Except.ok (Except.error "Not a manifest file!")
    | none => Except.ok (Except.error "Inode not found!")

/-- `KubeVirtualFs::list_files_two`: reconcile, then list (name, attr) for
each child of `inode`. -/
def list_files_two (vfs : KubeVirtualFs) (inode : Nat) :
    Except String (KubeVirtualFs × Option (List (String × FileAttrT))) :=
  match vfs.sync_leafs_for_inode inode with
  | Except.error e => Except.error e
  | Except.ok vfs1 =>
    match NodeId.new inode with
    | Except.error e => Except.error e
    | Except.ok id =>
      Except.ok (vfs1, (vfs1.arena_two.get_children id).map
        (fun nodes => nodes.map (fun n => (n.payload.get_file_name, vfs1.map_kube_file_to_attr n))))

/-- `KubeVirtualFs::get_file_from_parent_by_name_two`: reconcile the parent,
then linear-search its children for the requested display name. -/
def get_file_from_parent_by_name_two (vfs : KubeVirtualFs) (parent : Nat) (name : String) :
    Except String (KubeVirtualFs × Option (String × FileAttrT)) :=
  match vfs.sync_leafs_for_inode parent with
  | Except.error e => Except.error e
  | Except.ok vfs1 =>
    match NodeId.new parent with
    | Except.error e => Except.error e
    | Except.ok id =>
      Except.ok (vfs1,
        ((vfs1.arena_two.get_children id).map
          (fun nodes =>
            (nodes.map (fun n => (n.payload.get_file_name, vfs1.map_kube_file_to_attr n))).find?
              (fun f => f.1 == name))).join)

end KubeVirtualFs

/-! The FUSE protocol adapter (src/fuse.rs). -/

/-- Reply of `lookup` / `getattr` / `opendir`: an attribute set or ENOENT. -/
inductive AttrReply
  | attr (a : FileAttrT)
  | errENOENT
deriving Repr, DecidableEq

/-- Reply of `read`: the returned bytes (as a string) or ENOENT. -/
inductive ReadReply
  | data (s : String)
  | errENOENT
deriving Repr, DecidableEq

/-- One emitted readdir entry: (ino, next offset, kind, name), the argument
order of `ReplyDirectory::add`. -/
abbrev DirEntry := Nat × Nat × FileTypeT × String

/-- Reply of `readdir`: the emitted entries or ENOENT. -/
inductive ReaddirReply
  | entries (es : List DirEntry)
  | errENOENT
deriving Repr, DecidableEq

namespace KubeFuse

open KubeVirtualFs

/-- The `readdir` emission loop over the enumerated-then-skipped children:
`cap` is the remaining entry capacity of the reply buffer
(`ReplyDirectory::add` reports a full buffer by returning `true`, upon
which the source breaks).  Each emitted entry carries next-offset
`offset + i + 1` where `i` is the absolute index produced by
`enumerate().skip(offset)`. -/
def replyLoop (offset : Nat) : Nat → List (Nat × (String × FileAttrT)) → List DirEntry
  | _, [] => []
  | 0, _ :: _ => []
  | cap + 1, (i, (name, attr)) :: rest =>
    (attr.ino, offset + i + 1, attr.kind, name) :: replyLoop offset cap rest

/-- One `readdir` call's emitted entries for a fixed children snapshot. -/
def readdirPage (files : List (String × FileAttrT)) (offset cap : Nat) : List DirEntry :=
  replyLoop offset cap (files.enum.drop offset)

/-- `KubeFuse::readdir`. -/
def readdir (vfs : KubeVirtualFs) (ino offset cap : Nat) :
    Except String (KubeVirtualFs × ReaddirReply) :=
  match vfs.list_files_two ino with
  | Except.error e => Except.error e
  | Except.ok (vfs1, some files) => Except.ok (vfs1, ReaddirReply.entries (readdirPage files offset cap))
  | Except.ok (vfs1, none) => Except.ok (vfs1, ReaddirReply.errENOENT)

/-- `KubeFuse::lookup`. -/
def lookup (vfs : KubeVirtualFs) (parent : Nat) (name : String) :
    Except String (KubeVirtualFs × AttrReply) :=
  match vfs.get_file_from_parent_by_name_two parent name with
  | Except.error e => Except.error e
  | Except.ok (vfs1, some f) => Except.ok (vfs1, AttrReply.attr f.2)
  | Except.ok (vfs1, none) => Except.ok (vfs1, AttrReply.errENOENT)

/-- `KubeFuse::getattr`. -/
def getattr (vfs : KubeVirtualFs) (ino : Nat) : Except String AttrReply :=
  match vfs.get_file ino with
  | Except.error e => Except.error e
  | Except.ok (some f) => Except.ok (AttrReply.attr f.2)
  | Except.ok none => Except.ok AttrReply.errENOENT

/-- `KubeFuse::opendir` (replies `opened` with the projected flags; modelled
by the same attribute reply shape). -/
def opendir (vfs : KubeVirtualFs) (ino : Nat) : Except String AttrReply :=
  match vfs.get_file ino with
  | Except.error e => Except.error e
  | Except.ok (some f) => Except.ok (AttrReply.attr f.2)
  | Except.ok none => Except.ok AttrReply.errENOENT

/-- Rust byte-slice `contents.as_bytes()[offset..]`: the tail from `offset`,
panicking when `offset` exceeds the length. -/
def sliceFrom (contents : String) (offset : Nat) : Except String String :=
  if offset ≤ contents.data.length then Except.ok ⟨contents.data.drop offset⟩
  else Except.error "read: byte range start out of bounds panicked"

/-- `KubeFuse::read`. -/
def read (vfs : KubeVirtualFs) (ino offset : Nat) : Except String ReadReply :=
  match vfs.get_kube_manifest ino with
  | Except.error e => Except.error e
  | Except.ok (Except.ok contents) =>
    match sliceFrom contents offset with
    | Except.error e => Except.error e
    | Except.ok s => Except.ok (ReadReply.data s)
  | Except.ok (Except.error _) => Except.ok ReadReply.errENOENT

end KubeFuse

end KubeFS

namespace KubeFS

/-- Small concrete well-formed arena used by witness theorems: node 1 is the
root with children [2, 3], node 2 has child 4.  It is the arena produced by
four `add` calls on `Arena.new`. -/
def sampleArena : Arena Nat :=
  ⟨[(1, ⟨1, none, [2, 3], 10⟩), (2, ⟨2, some 1, [4], 20⟩), (3, ⟨3, some 1, [], 30⟩),
    (4, ⟨4, some 2, [], 40⟩)], 5⟩

/-- Ten dummy readdir children; entry i carries ino 100 + i so the emitted
pages can be traced back to indices. -/
def filesTen : List (String × FileAttrT) :=
  (List.range 10).map (fun i =>
    ("f" ++ toString i, ⟨100 + i, 0, 0, 0, 0, 0, 0, FileTypeT.RegularFile, 0, 0, 0, 0, 0, 0, 0⟩))

/-- Client whose provider calls all fail (a provider outage). -/
def failingClient : KubeClient :=
  ⟨Except.error (), fun _ _ => Except.error ()⟩

/-- Client whose provider calls all succeed with empty listings. -/
def emptyClient : KubeClient :=
  ⟨Except.ok [], fun _ _ => Except.ok []⟩

/-- Filesystem whose provider is down, with just the Context root (inode 1). -/
def vfsProviderDown : KubeVirtualFs :=
  ⟨failingClient, [], ⟨[(1, ⟨1, none, [], KubeFileNode.Context "default"⟩)], 2⟩, 0⟩

/-- Filesystem holding one resource file (inode 2) for a Pod named pod1. -/
def vfsWithFile : KubeVirtualFs :=
  ⟨emptyClient, [],
    ⟨[(1, ⟨1, none, [2], KubeFileNode.Context "default"⟩),
      (2, ⟨2, some 1, [], KubeFileNode.ResourceFile ⟨none, "uid-1", "pod1", "Pod"⟩⟩)], 3⟩, 0⟩

/-- Same shape as `vfsWithFile` but backed by a different cluster object,
to exhibit that read results do not depend on the entity at all. -/
def vfsWithFileOther : KubeVirtualFs :=
  ⟨emptyClient, [],
    ⟨[(1, ⟨1, none, [2], KubeFileNode.Context "default"⟩),
      (2, ⟨2, some 1, [], KubeFileNode.ResourceFile ⟨some "ns", "uid-2", "svc9", "Service"⟩⟩)], 3⟩, 0⟩

/-- Client for the C4 witness scenario: one Pod named new (uid u-new) is
live in namespace default. -/
def c4Client : KubeClient :=
  ⟨Except.ok [], fun _ _ => Except.ok [⟨some "default", some "u-new", "new"⟩]⟩

/-- Discovery result for the C4 witness scenario: the Pod kind, namespaced. -/
def c4Apis : List (ApiResource × ApiCapabilities) :=
  [(⟨"", "v1", "Pod", "pods"⟩, ⟨Scope.Namespaced⟩)]

/-- Arena for the C4 witness scenario: an ApiResourceDirectory (inode 2)
whose children are a stale resource file (inode 3, uid u-old) and the two
virtual entries (inodes 4 and 5). -/
def c4Arena : Arena KubeFileNode :=
  ⟨[(1, ⟨1, none, [2], KubeFileNode.Context "default"⟩),
    (2, ⟨2, some 1, [3, 4, 5],
      KubeFileNode.ApiResourceDirectory ⟨some "default", "", "v1", "Pod", "pods"⟩⟩),
    (3, ⟨3, some 2, [], KubeFileNode.ResourceFile ⟨some "default", "u-old", "old", "Pod"⟩⟩),
    (4, ⟨4, some 2, [], KubeFileNode.Virtual "."⟩),
    (5, ⟨5, some 2, [], KubeFileNode.Virtual ".."⟩)], 6⟩

/-- Client for the C3 witness scenario: one namespace default (uid u-ns). -/
def c3Client : KubeClient :=
  ⟨Except.ok [⟨none, some "u-ns", "default"⟩], fun _ _ => Except.ok []⟩

/-- Fresh arena for the C3 witness scenario: just the Context root. -/
def c3ArenaInit : Arena KubeFileNode :=
  ⟨[(1, ⟨1, none, [], KubeFileNode.Context "default"⟩)], 2⟩

/-- Identity of the default namespace in the C3 witness scenario. -/
def c3NsNode : KubeResourceNode := ⟨none, "u-ns", "default", "Namespace"⟩

/-- Arena state after the first reconciliation of the C3 witness scenario:
the root has gained the two virtual entries, the cluster-info file and the
namespace directory/file pair. -/
def c3ArenaAfter : Arena KubeFileNode :=
  ⟨[(6, ⟨6, some 1, [], KubeFileNode.ResourceFile c3NsNode⟩),
    (5, ⟨5, some 1, [], KubeFileNode.ResourceDirectory c3NsNode⟩),
    (4, ⟨4, some 1, [], KubeFileNode.ClusterInfoFile⟩),
    (3, ⟨3, some 1, [], KubeFileNode.Virtual ".."⟩),
    (2, ⟨2, some 1, [], KubeFileNode.Virtual "."⟩),
    (1, ⟨1, none, [2, 3, 4, 5, 6], KubeFileNode.Context "default"⟩)], 7⟩

end KubeFS

/-! ## Lemma layer: association-list map -/

namespace KubeFS

@[simp]
theorem mlookup_nil {T : Type} (j : Nat) : mlookup ([] : NodeMap T) j = none := rfl

@[simp]
theorem mlookup_cons {T : Type} (k : Nat) (v : ArenaNode T) (m : NodeMap T) (j : Nat) :
    mlookup ((k, v) :: m) j = if k = j then some v else mlookup m j := rfl

@[simp]
theorem mremove_nil {T : Type} (j : Nat) : mremove ([] : NodeMap T) j = [] := rfl

theorem mremove_cons_eq {T : Type} {k j : Nat} (h : k = j) (v : ArenaNode T) (m : NodeMap T) :
    mremove ((k, v) :: m) j = mremove m j := by
  simp [mremove, List.filter_cons, h]

theorem mremove_cons_ne {T : Type} {k j : Nat} (h : ¬ k = j) (v : ArenaNode T) (m : NodeMap T) :
    mremove ((k, v) :: m) j = (k, v) :: mremove m j := by
  simp [mremove, List.filter_cons, h]

@[simp]
theorem mupdate_nil {T : Type} (j : Nat) (f : ArenaNode T → ArenaNode T) :
    mupdate ([] : NodeMap T) j f = [] := rfl

theorem mupdate_cons_eq {T : Type} {k j : Nat} (h : k = j) (v : ArenaNode T) (m : NodeMap T)
    (f : ArenaNode T → ArenaNode T) :
    mupdate ((k, v) :: m) j f = (k, f v) :: mupdate m j f := by
  simp [mupdate, h]

theorem mupdate_cons_ne {T : Type} {k j : Nat} (h : ¬ k = j) (v : ArenaNode T) (m : NodeMap T)
    (f : ArenaNode T → ArenaNode T) :
    mupdate ((k, v) :: m) j f = (k, v) :: mupdate m j f := by
  simp [mupdate, h]

theorem mem_of_mlookup {T : Type} {m : NodeMap T} {k : Nat} {v : ArenaNode T}
    (h : mlookup m k = some v) : (k, v) ∈ m := by
  induction m with
  | nil => simp at h
  | cons p rest ih =>
    obtain ⟨k', v'⟩ := p
    by_cases hk : k' = k
    · simp [hk] at h
      simp [hk, h]
    · simp [hk] at h
      exact List.mem_cons_of_mem _ (ih h)

theorem mlookup_of_mem {T : Type} {m : NodeMap T} (hn : (m.map Prod.fst).Nodup)
    {k : Nat} {v : ArenaNode T} (h : (k, v) ∈ m) : mlookup m k = some v := by
  induction m with
  | nil => simp at h
  | cons p rest ih =>
    obtain ⟨k', v'⟩ := p
    rw [List.map_cons] at hn
    rcases List.nodup_cons.mp hn with ⟨hnotin, hrest⟩
    rcases List.mem_cons.mp h with h1 | h1
    · cases h1
      simp
    · have hk : ¬ k' = k := by
        intro hkk
        apply hnotin
        rw [hkk]
        exact List.mem_map.mpr ⟨(k, v), h1, rfl⟩
      simp [hk]
      exact ih hrest h1

theorem mlookup_isSome_iff_mem_keys {T : Type} (m : NodeMap T) (k : Nat) :
    (mlookup m k).isSome = true ↔ k ∈ m.map Prod.fst := by
  induction m with
  | nil => simp
  | cons p rest ih =>
    obtain ⟨k', v'⟩ := p
    by_cases hk : k' = k
    · simp [hk]
    · simp [hk, ih, Ne.symm hk]

theorem mlookup_eq_none_iff {T : Type} (m : NodeMap T) (k : Nat) :
    mlookup m k = none ↔ k ∉ m.map Prod.fst := by
  rw [← mlookup_isSome_iff_mem_keys]
  cases h : mlookup m k <;> simp

theorem mlookup_mremove {T : Type} (m : NodeMap T) (k j : Nat) :
    mlookup (mremove m k) j = if j = k then none else mlookup m j := by
  induction m with
  | nil => simp
  | cons p rest ih =>
    obtain ⟨k', v'⟩ := p
    by_cases hk : k' = k
    · rw [mremove_cons_eq hk, ih]
      by_cases hj : j = k
      · simp [hj]
      · have hkj : ¬ k' = j := by
          rw [hk]
          exact fun hh => hj hh.symm
        simp [hj, hkj]
    · rw [mremove_cons_ne hk]
      by_cases hj : k' = j
      · have hjk : ¬ j = k := by
          rw [← hj]
          exact fun hh => hk hh
        simp [hj, hjk]
      · simp [hj, ih]

theorem mlookup_mupdate {T : Type} (m : NodeMap T) (k : Nat) (f : ArenaNode T → ArenaNode T)
    (j : Nat) :
    mlookup (mupdate m k f) j = if j = k then (mlookup m j).map f else mlookup m j := by
  induction m with
  | nil => simp
  | cons p rest ih =>
    obtain ⟨k', v'⟩ := p
    by_cases hk : k' = k
    · rw [mupdate_cons_eq hk]
      by_cases hj : k' = j
      · have hjk : j = k := by
          rw [← hj, hk]
        simp [hj, hjk]
      · have hjk' : ¬ j = k ∨ True := Or.inr trivial
        simp [hj, ih]
    · rw [mupdate_cons_ne hk]
      by_cases hj : k' = j
      · have hjk : ¬ j = k := by
          rw [← hj]
          exact fun hh => hk hh
        simp [hj, hjk]
      · simp [hj, ih]

theorem mlookup_foldl_mremove {T : Type} (l : List Nat) (m : NodeMap T) (j : Nat) :
    mlookup (l.foldl (fun mm i => mremove mm i) m) j = if j ∈ l then none else mlookup m j := by
  induction l generalizing m with
  | nil => simp
  | cons x xs ih =>
    simp only [List.foldl_cons, ih, mlookup_mremove]
    by_cases hx : j = x
    · subst hx
      simp
    · by_cases hxs : j ∈ xs <;> simp [hx, hxs]

theorem keys_mupdate {T : Type} (m : NodeMap T) (k : Nat) (f : ArenaNode T → ArenaNode T) :
    (mupdate m k f).map Prod.fst = m.map Prod.fst := by
  induction m with
  | nil => rfl
  | cons p rest ih =>
    obtain ⟨k', v'⟩ := p
    by_cases hk : k' = k
    · rw [mupdate_cons_eq hk]
      simp [ih]
    · rw [mupdate_cons_ne hk]
      simp [ih]

theorem keys_mremove {T : Type} (m : NodeMap T) (k : Nat) :
    (mremove m k).map Prod.fst = (m.map Prod.fst).filter (fun x => x != k) := by
  induction m with
  | nil => rfl
  | cons p rest ih =>
    obtain ⟨k', v'⟩ := p
    by_cases hk : k' = k
    · rw [mremove_cons_eq hk]
      simp [List.filter_cons, hk, ih]
    · rw [mremove_cons_ne hk]
      simp [List.filter_cons, hk, ih]

end KubeFS

/-! ## Lemma layer: well-formedness projections -/

namespace KubeFS

theorem WF.keys_nodup {T : Type} {a : Arena T} (h : WF a) : (a.map.map Prod.fst).Nodup := h.1

theorem WF.counter_pos {T : Type} {a : Arena T} (h : WF a) : 0 < a.counter := h.2.2

theorem WF.node_clause {T : Type} {a : Arena T} (h : WF a) {k : Nat} {n : ArenaNode T}
    (hl : mlookup a.map k = some n) :
    n.id = k ∧ n.children_ids.Nodup ∧ 0 < k ∧ k < a.counter ∧
      (∀ c ∈ n.children_ids,
        k < c ∧ ∃ cn ∈ (mlookup a.map c).toList, cn.parent_id = some k) ∧
      (∀ q ∈ n.parent_id.toList, ∃ pn ∈ (mlookup a.map q).toList, k ∈ pn.children_ids) :=
  h.2.1 (k, n) (mem_of_mlookup hl)

theorem WF.id_eq {T : Type} {a : Arena T} (h : WF a) {k : Nat} {n : ArenaNode T}
    (hl : mlookup a.map k = some n) : n.id = k :=
  (h.node_clause hl).1

theorem WF.children_nodup {T : Type} {a : Arena T} (h : WF a) {k : Nat} {n : ArenaNode T}
    (hl : mlookup a.map k = some n) : n.children_ids.Nodup :=
  (h.node_clause hl).2.1

theorem WF.key_pos {T : Type} {a : Arena T} (h : WF a) {k : Nat} {n : ArenaNode T}
    (hl : mlookup a.map k = some n) : 0 < k :=
  (h.node_clause hl).2.2.1

theorem WF.key_lt {T : Type} {a : Arena T} (h : WF a) {k : Nat} {n : ArenaNode T}
    (hl : mlookup a.map k = some n) : k < a.counter :=
  (h.node_clause hl).2.2.2.1

theorem WF.child_gt {T : Type} {a : Arena T} (h : WF a) {k : Nat} {n : ArenaNode T}
    (hl : mlookup a.map k = some n) {c : Nat} (hc : c ∈ n.children_ids) : k < c :=
  ((h.node_clause hl).2.2.2.2.1 c hc).1

theorem WF.child_lookup {T : Type} {a : Arena T} (h : WF a) {k : Nat} {n : ArenaNode T}
    (hl : mlookup a.map k = some n) {c : Nat} (hc : c ∈ n.children_ids) :
    ∃ cn, mlookup a.map c = some cn ∧ cn.parent_id = some k := by
  obtain ⟨cn, hcn1, hcn2⟩ := ((h.node_clause hl).2.2.2.2.1 c hc).2
  refine ⟨cn, ?_, hcn2⟩
  simpa [Option.mem_toList, Option.mem_def] using hcn1

theorem WF.parent_lookup {T : Type} {a : Arena T} (h : WF a) {k : Nat} {n : ArenaNode T}
    (hl : mlookup a.map k = some n) {q : Nat} (hq : n.parent_id = some q) :
    ∃ pn, mlookup a.map q = some pn ∧ k ∈ pn.children_ids := by
  obtain ⟨pn, hpn1, hpn2⟩ := (h.node_clause hl).2.2.2.2.2 q (by simp [hq])
  refine ⟨pn, ?_, hpn2⟩
  simpa [Option.mem_toList, Option.mem_def] using hpn1

theorem WF.parent_unique {T : Type} {a : Arena T} (h : WF a) {k k' : Nat}
    {n n' : ArenaNode T} (hl : mlookup a.map k = some n) (hl' : mlookup a.map k' = some n')
    {c : Nat} (hc : c ∈ n.children_ids) (hc' : c ∈ n'.children_ids) : k = k' := by
  obtain ⟨cn, hcn, hp⟩ := h.child_lookup hl hc
  obtain ⟨cn', hcn', hp'⟩ := h.child_lookup hl' hc'
  rw [hcn] at hcn'
  cases hcn'
  rw [hp] at hp'
  exact Option.some.inj hp'

end KubeFS

/-! ## Lemma layer: DFS pre-order theory -/

namespace KubeFS

open Arena

@[simp]
theorem dfsAux_empty_stack {T : Type} (m : NodeMap T) (fuel : Nat) (acc : List Nat) :
    dfsAux m fuel [] acc = some acc := by
  cases fuel <;> rfl

theorem dfsAux_cons_some {T : Type} {m : NodeMap T} {x : Nat} {node : ArenaNode T}
    (h : mlookup m x = some node) (fuel : Nat) (s acc : List Nat) :
    dfsAux m (fuel + 1) (x :: s) acc = dfsAux m fuel (node.children_ids ++ s) (acc ++ [node.id]) := by
  simp [dfsAux, h]

theorem dfsAux_cons_none {T : Type} {m : NodeMap T} {x : Nat}
    (h : mlookup m x = none) (fuel : Nat) (s acc : List Nat) :
    dfsAux m (fuel + 1) (x :: s) acc = none := by
  simp [dfsAux, h]

theorem PreOrdF.dfsAux_eq {T : Type} {m : NodeMap T} {s l : List Nat} (h : PreOrdF m s l) :
    ∀ (fuel : Nat) (s2 acc : List Nat),
      dfsAux m (fuel + l.length) (s ++ s2) acc = dfsAux m fuel s2 (acc ++ l) := by
  induction h with
  | nil =>
    intro fuel s2 acc
    simp
  | @cons id rest l1 l2 n hlook h1 h2 ih1 ih2 =>
    intro fuel s2 acc
    have hlen : fuel + (n.id :: (l1 ++ l2)).length = (fuel + l2.length + l1.length) + 1 := by
      simp [List.length_append]
      omega
    rw [hlen]
    rw [show (id :: rest) ++ s2 = id :: (rest ++ s2) from rfl]
    rw [dfsAux_cons_some hlook]
    rw [ih1 (fuel + l2.length) (rest ++ s2) (acc ++ [n.id])]
    rw [ih2 fuel s2 (acc ++ [n.id] ++ l1)]
    congr 1
    simp

theorem PreOrdF.append {T : Type} {m : NodeMap T} {s1 l1 s2 l2 : List Nat}
    (h1 : PreOrdF m s1 l1) (h2 : PreOrdF m s2 l2) : PreOrdF m (s1 ++ s2) (l1 ++ l2) := by
  induction h1 with
  | nil => simpa using h2
  | @cons id rest lc lr n hlook hc hr ihc ihr =>
    have := PreOrdF.cons n hlook hc ihr
    simpa [List.append_assoc] using this

theorem PreOrdF.unique {T : Type} {m : NodeMap T} {s l : List Nat} (h : PreOrdF m s l) :
    ∀ l', PreOrdF m s l' → l = l' := by
  induction h with
  | nil =>
    intro l' h'
    cases h'
    rfl
  | @cons id rest l1 l2 n hlook h1 h2 ih1 ih2 =>
    intro l' h'
    cases h' with
    | cons n' hlook' h1' h2' =>
      rw [hlook] at hlook'
      cases hlook'
      rw [ih1 _ h1', ih2 _ h2']

theorem forest_of_singles {T : Type} {m : NodeMap T} :
    ∀ (cs : List Nat), (∀ c ∈ cs, ∃ lc, PreOrdF m [c] lc) → ∃ L, PreOrdF m cs L := by
  intro cs
  induction cs with
  | nil => exact fun _ => ⟨[], PreOrdF.nil⟩
  | cons c cs ih =>
    intro h
    obtain ⟨lc, hlc⟩ := h c (List.mem_cons_self c cs)
    obtain ⟨L, hL⟩ := ih (fun x hx => h x (List.mem_cons_of_mem c hx))
    exact ⟨lc ++ L, by simpa using hlc.append hL⟩

theorem exists_preord {T : Type} {a : Arena T} (hWF : WF a) :
    ∀ (N id : Nat) (n : ArenaNode T), mlookup a.map id = some n → a.counter - id ≤ N →
      ∃ l, PreOrdF a.map [id] l := by
  intro N
  induction N with
  | zero =>
    intro id n hl hle
    exfalso
    have := hWF.key_lt hl
    omega
  | succ N ih =>
    intro id n hl hle
    have hch : ∀ c ∈ n.children_ids, ∃ lc, PreOrdF a.map [c] lc := by
      intro c hc
      obtain ⟨cn, hcn, _⟩ := hWF.child_lookup hl hc
      apply ih c cn hcn
      have hidc : id < c := hWF.child_gt hl hc
      have hcc : c < a.counter := hWF.key_lt hcn
      omega
    obtain ⟨L, hL⟩ := forest_of_singles n.children_ids hch
    exact ⟨n.id :: (L ++ []), PreOrdF.cons n hl hL PreOrdF.nil⟩

end KubeFS

/-! ## Lemma layer: descendant relation under well-formedness -/

namespace KubeFS

open Arena

theorem Desc.le {T : Type} {a : Arena T} (hWF : WF a) {r x : Nat}
    (h : Desc a.map r x) : r ≤ x := by
  induction h with
  | refl _ => exact Nat.le_refl _
  | @step id c x n hlook hc hd ih =>
    have h1 : id < c := hWF.child_gt hlook hc
    omega

theorem Desc.isSome {T : Type} {a : Arena T} (hWF : WF a) {r x : Nat}
    (h : Desc a.map r x) : (mlookup a.map r).isSome → (mlookup a.map x).isSome := by
  induction h with
  | refl _ => exact id
  | @step id c x n hlook hc hd ih =>
    intro _
    obtain ⟨cn, hcn, _⟩ := hWF.child_lookup hlook hc
    exact ih (by simp [hcn])

theorem Desc.extend_child {T : Type} {m : NodeMap T} {r p : Nat} (h : Desc m r p) :
    ∀ {pn : ArenaNode T}, mlookup m p = some pn → ∀ {c : Nat}, c ∈ pn.children_ids →
      Desc m r c := by
  induction h with
  | refl _ =>
    intro pn hl c hc
    exact Desc.step pn hl hc (Desc.refl c)
  | @step id c' x n hlook hc' hd ih =>
    intro pn hl c hc
    exact Desc.step n hlook hc' (ih hl hc)

theorem Desc.via_parent {T : Type} {a : Arena T} (hWF : WF a) {r x : Nat}
    (h : Desc a.map r x) :
    x = r ∨ ∃ p nx, mlookup a.map x = some nx ∧ nx.parent_id = some p ∧ Desc a.map r p := by
  induction h with
  | refl _ => exact Or.inl rfl
  | @step id c x n hlook hc hd ih =>
    rcases ih with h1 | ⟨p, nx, h1, h2, h3⟩
    · subst h1
      obtain ⟨cn, hcn, hp⟩ := hWF.child_lookup hlook hc
      exact Or.inr ⟨id, cn, hcn, hp, Desc.refl id⟩
    · exact Or.inr ⟨p, nx, h1, h2, Desc.step n hlook hc h3⟩

theorem Desc.comparable {T : Type} {a : Arena T} (hWF : WF a) :
    ∀ (x r r' : Nat), Desc a.map r x → Desc a.map r' x →
      Desc a.map r r' ∨ Desc a.map r' r := by
  intro x
  induction x using Nat.strong_induction_on with
  | _ x ihx =>
    intro r r' h1 h2
    rcases Desc.via_parent hWF h1 with hx1 | ⟨p, nx, hl, hp, hdp⟩
    · subst hx1
      exact Or.inr h2
    · rcases Desc.via_parent hWF h2 with hx2 | ⟨p', nx', hl', hp', hdp'⟩
      · subst hx2
        exact Or.inl h1
      · rw [hl] at hl'
        cases hl'
        rw [hp] at hp'
        cases hp'
        have hpx : p < x := by
          obtain ⟨pn, hpn, hmem⟩ := hWF.parent_lookup hl hp
          exact hWF.child_gt hpn hmem
        exact ihx p hpx r r' hdp hdp'

theorem siblings_no_common_desc {T : Type} {a : Arena T} (hWF : WF a) {k : Nat}
    {n : ArenaNode T} (hl : mlookup a.map k = some n) {c c' : Nat}
    (hc : c ∈ n.children_ids) (hc' : c' ∈ n.children_ids) (hne : c ≠ c') :
    ∀ x, Desc a.map c x → Desc a.map c' x → False := by
  have key : ∀ u u', u ∈ n.children_ids → u' ∈ n.children_ids → u ≠ u' →
      Desc a.map u u' → False := by
    intro u u' hu hu' hneu hdesc
    rcases Desc.via_parent hWF hdesc with h1 | ⟨p, nx, hlx, hpx, hdp⟩
    · exact hneu h1.symm
    · obtain ⟨cn', hcn', hp'⟩ := hWF.child_lookup hl hu'
      rw [hcn'] at hlx
      cases hlx
      rw [hp'] at hpx
      cases hpx
      have h2 : u ≤ k := Desc.le hWF hdp
      have h3 : k < u := hWF.child_gt hl hu
      omega
  intro x hx hx'
  rcases Desc.comparable hWF x c c' hx hx' with h | h
  · exact key c c' hc hc' hne h
  · exact key c' c hc' hc (Ne.symm hne) h

theorem PreOrdF.mem_out {T : Type} {a : Arena T} (hWF : WF a) {s l : List Nat}
    (h : PreOrdF a.map s l) : ∀ x ∈ l, ∃ r ∈ s, Desc a.map r x := by
  induction h with
  | nil => simp
  | @cons id rest l1 l2 n hlook h1 h2 ih1 ih2 =>
    intro x hx
    have hid : n.id = id := hWF.id_eq hlook
    rw [hid] at hx
    rcases List.mem_cons.mp hx with hx1 | hx1
    · refine ⟨id, List.mem_cons_self id rest, ?_⟩
      rw [hx1]
      exact Desc.refl id
    · rcases List.mem_append.mp hx1 with hx2 | hx2
      · obtain ⟨c, hc, hdc⟩ := ih1 x hx2
        exact ⟨id, List.mem_cons_self id rest, Desc.step n hlook hc hdc⟩
      · obtain ⟨r, hr, hdr⟩ := ih2 x hx2
        exact ⟨r, List.mem_cons_of_mem id hr, hdr⟩

theorem PreOrdF.out_mem {T : Type} {a : Arena T} (hWF : WF a) {s l : List Nat}
    (h : PreOrdF a.map s l) : ∀ r ∈ s, ∀ x, Desc a.map r x → x ∈ l := by
  induction h with
  | nil => simp
  | @cons id rest l1 l2 n hlook h1 h2 ih1 ih2 =>
    intro r hr x hdx
    have hid : n.id = id := hWF.id_eq hlook
    rcases List.mem_cons.mp hr with hr1 | hr1
    · subst hr1
      cases hdx with
      | refl _ =>
        rw [hid]
        exact List.mem_cons_self _ _
      | step n' hlook' hc hd =>
        rw [hlook] at hlook'
        cases hlook'
        have := ih1 _ hc _ hd
        exact List.mem_cons_of_mem _ (List.mem_append.mpr (Or.inl this))
    · have := ih2 r hr1 x hdx
      exact List.mem_cons_of_mem _ (List.mem_append.mpr (Or.inr this))

theorem PreOrdF.nodup {T : Type} {a : Arena T} (hWF : WF a) {s l : List Nat}
    (h : PreOrdF a.map s l) (hs : RootsIndep a.map s) : l.Nodup := by
  induction h with
  | nil => exact List.nodup_nil
  | @cons id rest l1 l2 n hlook h1 h2 ih1 ih2 =>
    have hid : n.id = id := hWF.id_eq hlook
    rcases List.pairwise_cons.mp hs with ⟨hhead, htail⟩
    have hch : RootsIndep a.map n.children_ids := by
      have hnd := hWF.children_nodup hlook
      exact List.Pairwise.imp_of_mem
        (fun ha hb hne => siblings_no_common_desc hWF hlook ha hb hne) hnd
    have hl1 : l1.Nodup := ih1 hch
    have hl2 : l2.Nodup := ih2 htail
    have hid_not_l1 : id ∉ l1 := by
      intro hmem
      obtain ⟨c, hc, hdc⟩ := PreOrdF.mem_out hWF h1 id hmem
      have := Desc.le hWF hdc
      have := hWF.child_gt hlook hc
      omega
    have hid_not_l2 : id ∉ l2 := by
      intro hmem
      obtain ⟨r, hr, hdr⟩ := PreOrdF.mem_out hWF h2 id hmem
      exact hhead r hr id (Desc.refl id) hdr
    have hdisj : ∀ x ∈ l1, x ∉ l2 := by
      intro x hx1 hx2
      obtain ⟨c, hc, hdc⟩ := PreOrdF.mem_out hWF h1 x hx1
      obtain ⟨r, hr, hdr⟩ := PreOrdF.mem_out hWF h2 x hx2
      exact hhead r hr x (Desc.step n hlook hc hdc) hdr
    rw [hid]
    refine List.nodup_cons.mpr ⟨?_, ?_⟩
    · intro hmem
      rcases List.mem_append.mp hmem with hm | hm
      · exact hid_not_l1 hm
      · exact hid_not_l2 hm
    · exact List.nodup_append.mpr ⟨hl1, hl2, fun x hx => hdisj x hx⟩

end KubeFS

/-! ## Lemma layer: tree_walk_dfs and delete_node under well-formedness -/

namespace KubeFS

open Arena

theorem tree_walk_dfs_of_WF {T : Type} {a : Arena T} (hWF : WF a) {id : Nat}
    {n : ArenaNode T} (hl : mlookup a.map id = some n) :
    ∃ l, a.tree_walk_dfs id = some l ∧ PreOrdF a.map [id] l ∧ l.Nodup ∧
      (∀ x, x ∈ l ↔ Desc a.map id x) := by
  obtain ⟨l, hpre⟩ := exists_preord hWF a.counter id n hl (by omega)
  have hnd : l.Nodup := hpre.nodup hWF (by simp [RootsIndep])
  have hmem : ∀ x, x ∈ l ↔ Desc a.map id x := by
    intro x
    constructor
    · intro hx
      obtain ⟨r, hr, hdr⟩ := hpre.mem_out hWF x hx
      simp at hr
      rwa [hr] at hdr
    · intro hd
      exact hpre.out_mem hWF id (by simp) x hd
  have hsub : ∀ x ∈ l, x ∈ a.map.map Prod.fst := by
    intro x hx
    have hd := (hmem x).1 hx
    have h1 : (mlookup a.map x).isSome := Desc.isSome hWF hd (by simp [hl])
    exact (mlookup_isSome_iff_mem_keys _ _).1 h1
  have hlen : l.length ≤ a.map.length := by
    have h2 := (List.Nodup.subperm hnd (fun x hx => hsub x hx)).length_le
    simpa using h2
  have hrun : dfsAux a.map (a.map.length + 1) [id] [] = some l := by
    have h3 := hpre.dfsAux_eq (a.map.length + 1 - l.length) [] []
    have harith : (a.map.length + 1 - l.length) + l.length = a.map.length + 1 := by omega
    rw [harith] at h3
    simpa using h3
  have hcontains : a.contains id = true := by
    simp [Arena.contains, Arena.get, hl]
  have hne : l ≠ [] := by
    have : id ∈ l := (hmem id).2 (Desc.refl id)
    exact List.ne_nil_of_mem this
  refine ⟨l, ?_, hpre, hnd, hmem⟩
  unfold Arena.tree_walk_dfs
  rw [hcontains]
  simp [hrun, hne]

theorem delete_node_run {T : Type} {a : Arena T} {id : Nat} {n : ArenaNode T}
    (hl : mlookup a.map id = some n) {l : List Nat} (hdfs : a.tree_walk_dfs id = some l) :
    (a.delete_node id).2 = some l ∧ (a.delete_node id).1.counter = a.counter ∧
      ∀ x, mlookup (a.delete_node id).1.map x =
        if x ∈ l then none
        else if n.parent_id = some x then
          (mlookup a.map x).map
            (fun pn => { pn with children_ids := pn.children_ids.filter (fun c => c != id) })
        else mlookup a.map x := by
  have hget : a.get id = some n := hl
  simp only [Arena.delete_node, hget, hdfs]
  refine ⟨trivial, trivial, ?_⟩
  intro x
  by_cases hxl : x ∈ l
  · simp [mlookup_foldl_mremove, hxl]
  · cases hpar : n.parent_id with
    | none =>
      simp [mlookup_foldl_mremove, hxl]
    | some pid =>
      by_cases hxp : pid = x
      · subst hxp
        simp [mlookup_foldl_mremove, hxl, mlookup_mupdate]
      · have hne2 : ¬ (some pid = some x) := by
          intro hcon
          exact hxp (Option.some.inj hcon)
        simp [mlookup_foldl_mremove, hxl, mlookup_mupdate, Ne.symm hxp, hne2]

theorem delete_node_absent {T : Type} {a : Arena T} {id : Nat}
    (hl : mlookup a.map id = none) : a.delete_node id = (a, none) := by
  have hget : a.get id = none := hl
  unfold Arena.delete_node
  rw [hget]

theorem keys_nodup_foldl_mremove {T : Type} (l : List Nat) (m : NodeMap T)
    (h : (m.map Prod.fst).Nodup) :
    (((l.foldl (fun mm i => mremove mm i) m)).map Prod.fst).Nodup := by
  induction l generalizing m with
  | nil => simpa
  | cons x xs ih =>
    simp only [List.foldl_cons]
    apply ih
    rw [keys_mremove]
    exact h.filter _

theorem keys_nodup_mupdate {T : Type} (m : NodeMap T) (k : Nat)
    (f : ArenaNode T → ArenaNode T) (h : (m.map Prod.fst).Nodup) :
    ((mupdate m k f).map Prod.fst).Nodup := by
  rw [keys_mupdate]
  exact h

end KubeFS

/-! ## Lemma layer: delete_node preserves well-formedness -/

namespace KubeFS

open Arena

theorem delete_node_keys_nodup {T : Type} {a : Arena T} {id : Nat} {n : ArenaNode T}
    (hl : mlookup a.map id = some n) {l : List Nat} (hdfs : a.tree_walk_dfs id = some l)
    (h : (a.map.map Prod.fst).Nodup) :
    (((a.delete_node id).1.map).map Prod.fst).Nodup := by
  have hget : a.get id = some n := hl
  simp only [Arena.delete_node, hget, hdfs]
  apply keys_nodup_foldl_mremove
  cases n.parent_id with
  | none => exact h
  | some pid => exact keys_nodup_mupdate _ _ _ h

theorem delete_preserves_WF {T : Type} {a : Arena T} (hWF : WF a) {id : Nat}
    {n : ArenaNode T} (hl : mlookup a.map id = some n) : WF (a.delete_node id).1 := by
  obtain ⟨l, hdfs, hpre, hnd, hmem⟩ := tree_walk_dfs_of_WF hWF hl
  obtain ⟨hret, hcnt, hlook⟩ := delete_node_run hl hdfs
  have hkeysnd : (((a.delete_node id).1.map).map Prod.fst).Nodup :=
    delete_node_keys_nodup hl hdfs hWF.keys_nodup
  have hidl : id ∈ l := (hmem id).2 (Desc.refl id)
  refine ⟨hkeysnd, ?_, by rw [hcnt]; exact hWF.counter_pos⟩
  intro p hp
  obtain ⟨k, nd⟩ := p
  have hk : mlookup (a.delete_node id).1.map k = some nd := mlookup_of_mem hkeysnd hp
  have hkl : k ∉ l := by
    intro hcon
    rw [hlook k] at hk
    simp [hcon] at hk
  have horig : ∃ o, mlookup a.map k = some o ∧ nd.id = o.id ∧ nd.parent_id = o.parent_id ∧
      ((nd.children_ids = o.children_ids.filter (fun c => c != id) ∧ n.parent_id = some k) ∨
        (nd.children_ids = o.children_ids ∧ ¬ n.parent_id = some k)) := by
    rw [hlook k, if_neg hkl] at hk
    by_cases hkp : n.parent_id = some k
    · rw [if_pos hkp] at hk
      cases hpk : mlookup a.map k with
      | none =>
        rw [hpk] at hk
        simp at hk
      | some o =>
        rw [hpk] at hk
        simp only [Option.map_some'] at hk
        refine ⟨o, rfl, ?_, ?_, Or.inl ⟨?_, hkp⟩⟩ <;> rw [← Option.some.inj hk]
    · rw [if_neg hkp] at hk
      exact ⟨nd, hk, rfl, rfl, Or.inr ⟨rfl, hkp⟩⟩
  obtain ⟨o, ho, hndid, hndpar, hndch⟩ := horig
  have hchsub : ∀ c ∈ nd.children_ids, c ∈ o.children_ids := by
    intro c hc
    rcases hndch with ⟨hf, _⟩ | ⟨he, _⟩
    · rw [hf] at hc
      exact (List.mem_filter.1 hc).1
    · rw [he] at hc
      exact hc
  have hchne : ∀ c ∈ nd.children_ids, c ≠ id := by
    intro c hc hcon
    rcases hndch with ⟨hf, _⟩ | ⟨he, hkp⟩
    · rw [hf] at hc
      have := (List.mem_filter.1 hc).2
      simp [hcon] at this
    · rw [he] at hc
      apply hkp
      obtain ⟨cn, hcn, hcp⟩ := hWF.child_lookup ho hc
      rw [hcon] at hcn
      rw [hl] at hcn
      cases hcn
      exact hcp
  have hchnl : ∀ c ∈ nd.children_ids, c ∉ l := by
    intro c hc hcon
    have hdc : Desc a.map id c := (hmem c).1 hcon
    rcases Desc.via_parent hWF hdc with h1 | ⟨q, nx, hlx, hqx, hdq⟩
    · exact hchne c hc h1
    · obtain ⟨cn, hcn, hcp⟩ := hWF.child_lookup ho (hchsub c hc)
      rw [hcn] at hlx
      cases hlx
      rw [hcp] at hqx
      cases hqx
      exact hkl ((hmem k).2 hdq)
  constructor
  · rw [hndid]
    exact hWF.id_eq ho
  constructor
  · rcases hndch with ⟨hf, _⟩ | ⟨he, _⟩
    · rw [hf]
      exact (hWF.children_nodup ho).filter _
    · rw [he]
      exact hWF.children_nodup ho
  constructor
  · exact hWF.key_pos ho
  constructor
  · rw [hcnt]
    exact hWF.key_lt ho
  constructor
  · intro c hc
    refine ⟨hWF.child_gt ho (hchsub c hc), ?_⟩
    obtain ⟨cn, hcn, hcp⟩ := hWF.child_lookup ho (hchsub c hc)
    have hcl : c ∉ l := hchnl c hc
    rw [hlook c, if_neg hcl]
    by_cases hcp2 : n.parent_id = some c
    · rw [if_pos hcp2, hcn]
      refine ⟨{ cn with children_ids := cn.children_ids.filter (fun c => c != id) }, by simp, ?_⟩
      simpa using hcp
    · rw [if_neg hcp2, hcn]
      exact ⟨cn, by simp, hcp⟩
  · intro q hq
    rw [hndpar] at hq
    simp only [Option.mem_toList, Option.mem_def] at hq
    obtain ⟨pn, hpn, hkpn⟩ := hWF.parent_lookup ho hq
    have hql : q ∉ l := by
      intro hcon
      have hdq : Desc a.map id q := (hmem q).1 hcon
      have hdk : Desc a.map id k := Desc.extend_child hdq hpn hkpn
      exact hkl ((hmem k).2 hdk)
    rw [hlook q, if_neg hql]
    by_cases hqp : n.parent_id = some q
    · rw [if_pos hqp, hpn]
      refine ⟨{ pn with children_ids := pn.children_ids.filter (fun c => c != id) }, by simp, ?_⟩
      simp only [List.mem_filter]
      refine ⟨hkpn, ?_⟩
      have : k ≠ id := by
        intro hcon
        rw [hcon] at hkl
        exact hkl hidl
      simpa using this
    · rw [if_neg hqp, hpn]
      exact ⟨pn, by simp, hkpn⟩

end KubeFS

/-! ## Lemma layer: add -/

namespace KubeFS

open Arena

theorem add_id {T : Type} (a : Arena T) (p : T) (par : Option Nat) :
    (a.add p par).2 = a.counter := rfl

theorem add_counter {T : Type} (a : Arena T) (p : T) (par : Option Nat) :
    (a.add p par).1.counter = a.counter + 1 := by
  cases par <;> rfl

theorem add_keys {T : Type} (a : Arena T) (p : T) (par : Option Nat) :
    ((a.add p par).1.map).map Prod.fst = a.counter :: a.map.map Prod.fst := by
  cases par with
  | none => rfl
  | some pid =>
    simp only [Arena.add, Arena.generate_id]
    rw [keys_mupdate]
    rfl

theorem add_lookup {T : Type} (a : Arena T) (p : T) (par : Option Nat)
    (hne : par ≠ some a.counter) :
    ∀ x, mlookup (a.add p par).1.map x =
      if x = a.counter then some ⟨a.counter, par, [], p⟩
      else if par = some x then
        (mlookup a.map x).map
          (fun nd => { nd with children_ids := nd.children_ids ++ [a.counter] })
      else mlookup a.map x := by
  intro x
  cases par with
  | none =>
    show mlookup ((a.counter, ⟨a.counter, none, [], p⟩) :: a.map) x = _
    by_cases hx : x = a.counter
    · simp [hx]
    · simp [hx, Ne.symm hx]
  | some pid =>
    have hpid : pid ≠ a.counter := by
      intro hcon
      exact hne (by rw [hcon])
    simp only [Arena.add, Arena.generate_id]
    rw [mlookup_mupdate]
    by_cases hx : x = a.counter
    · subst hx
      simp [Ne.symm hpid]
    · by_cases hxp : x = pid
      · subst hxp
        simp [hpid, Ne.symm hpid]
      · have hsome : ¬ (some pid = some x) := fun hcon => hxp (Option.some.inj hcon).symm
        simp [hx, hxp, Ne.symm hx, hsome]

end KubeFS

/-! ## Lemma layer: add preserves well-formedness -/

namespace KubeFS

open Arena

theorem counter_fresh {T : Type} {a : Arena T} (hWF : WF a) :
    a.counter ∉ a.map.map Prod.fst := by
  intro hcon
  have h1 := (mlookup_isSome_iff_mem_keys a.map a.counter).2 hcon
  cases hl : mlookup a.map a.counter with
  | none =>
    rw [hl] at h1
    simp at h1
  | some nn => exact absurd (hWF.key_lt hl) (lt_irrefl _)

theorem add_preserves_WF {T : Type} {a : Arena T} (hWF : WF a) (p : T) {par : Option Nat}
    (hpar : par = none ∨ ∃ pid npid, par = some pid ∧ mlookup a.map pid = some npid) :
    WF (a.add p par).1 := by
  have hne : par ≠ some a.counter := by
    rcases hpar with h | ⟨pid, npid, hp, hl⟩
    · rw [h]
      simp
    · rw [hp]
      intro hcon
      have h1 := hWF.key_lt hl
      rw [Option.some.inj hcon] at h1
      exact absurd h1 (lt_irrefl _)
  have hlook := add_lookup a p par hne
  have hkeys := add_keys a p par
  have hcnt := add_counter a p par
  have hfresh : a.counter ∉ a.map.map Prod.fst := counter_fresh hWF
  have hknodup : (((a.add p par).1.map).map Prod.fst).Nodup := by
    rw [hkeys]
    exact List.nodup_cons.mpr ⟨hfresh, hWF.keys_nodup⟩
  have hchild_lt : ∀ {k : Nat} {nd : ArenaNode T}, mlookup a.map k = some nd →
      ∀ c ∈ nd.children_ids, c < a.counter := by
    intro k nd hl c hc
    obtain ⟨cn, hcn, _⟩ := hWF.child_lookup hl hc
    exact hWF.key_lt hcn
  refine ⟨hknodup, ?_, by rw [hcnt]; omega⟩
  intro q hq
  obtain ⟨k, nd⟩ := q
  show nd.id = k ∧ nd.children_ids.Nodup ∧ 0 < k ∧ k < (a.add p par).1.counter ∧
    (∀ c ∈ nd.children_ids,
      k < c ∧ ∃ cn ∈ (mlookup (a.add p par).1.map c).toList, cn.parent_id = some k) ∧
    (∀ qq ∈ nd.parent_id.toList,
      ∃ pn ∈ (mlookup (a.add p par).1.map qq).toList, k ∈ pn.children_ids)
  have hknd : mlookup (a.add p par).1.map k = some nd := mlookup_of_mem hknodup hq
  rw [hlook k] at hknd
  by_cases hk : k = a.counter
  · rw [if_pos hk] at hknd
    have hnd : nd = ⟨a.counter, par, [], p⟩ := (Option.some.inj hknd).symm
    refine ⟨?_, ?_, ?_, ?_, ?_, ?_⟩
    · rw [hnd, hk]
    · rw [hnd]
      exact List.nodup_nil
    · rw [hk]
      exact hWF.counter_pos
    · rw [hk, hcnt]
      omega
    · rw [hnd]
      intro c hc
      simp at hc
    · rw [hnd]
      intro qq hqq
      simp only [Option.mem_toList, Option.mem_def] at hqq
      rcases hpar with hp | ⟨pid, npid, hp, hl⟩
      · rw [hp] at hqq
        simp at hqq
      · rw [hp] at hqq
        have hqqpid : qq = pid := by
          simpa using hqq.symm
      -- lookup of pid in the new map
        have hpidne : ¬ pid = a.counter := by
          intro hcon
          have h1 := hWF.key_lt hl
          rw [hcon] at h1
          exact absurd h1 (lt_irrefl _)
        have h2 : mlookup (a.add p par).1.map pid =
            some { npid with children_ids := npid.children_ids ++ [a.counter] } := by
          rw [hlook pid, if_neg hpidne, if_pos hp, hl]
          rfl
        rw [hqqpid]
        refine ⟨{ npid with children_ids := npid.children_ids ++ [a.counter] }, ?_, ?_⟩
        · rw [h2]
          simp
        · rw [hk]
          simp
  · rw [if_neg hk] at hknd
    by_cases hkp : par = some k
    · rcases hpar with hp | ⟨pid, npid, hp, hl⟩
      · rw [hp] at hkp
        simp at hkp
      · have hkpid : k = pid := by
          rw [hp] at hkp
          exact (Option.some.inj hkp).symm
        rw [if_pos hkp] at hknd
        rw [hkpid] at hknd ⊢
        rw [hl] at hknd
        have hnd : nd = { npid with children_ids := npid.children_ids ++ [a.counter] } := by
          simpa using hknd.symm
        refine ⟨?_, ?_, ?_, ?_, ?_, ?_⟩
        · rw [hnd]
          show npid.id = pid
          exact hWF.id_eq hl
        · rw [hnd]
          refine List.nodup_append.mpr ⟨hWF.children_nodup hl, List.nodup_singleton _, ?_⟩
          intro x hx
          have hlt := hchild_lt hl x hx
          simp
          omega
        · exact hWF.key_pos hl
        · rw [hcnt]
          have := hWF.key_lt hl
          omega
        · rw [hnd]
          intro c hc
          simp only [List.mem_append, List.mem_singleton] at hc
          rcases hc with hc | hc
          · refine ⟨hWF.child_gt hl hc, ?_⟩
            obtain ⟨cn, hcn, hcp⟩ := hWF.child_lookup hl hc
            have hcc : ¬ c = a.counter := by
              have := hWF.key_lt hcn
              omega
            have hck : ¬ par = some c := by
              rw [hp]
              intro hcon
              have hpc : pid = c := Option.some.inj hcon
              have := hWF.child_gt hl hc
              omega
            rw [hlook c, if_neg hcc, if_neg hck, hcn]
            exact ⟨cn, by simp, by simp [hcp, hkpid]⟩
          · rw [hc]
            refine ⟨?_, ?_⟩
            · have := hWF.key_lt hl
              omega
            · rw [hlook a.counter, if_pos rfl]
              refine ⟨⟨a.counter, par, [], p⟩, by simp, ?_⟩
              simp [hp, hkpid]
        · rw [hnd]
          intro qq hqq
          simp only [Option.mem_toList, Option.mem_def] at hqq
          obtain ⟨pn, hpn, hmem⟩ := hWF.parent_lookup hl hqq
          have hqqc : ¬ qq = a.counter := by
            have := hWF.key_lt hpn
            omega
          have hqqp : ¬ par = some qq := by
            rw [hp]
            intro hcon
            have hq2 : pid = qq := Option.some.inj hcon
            rw [← hq2] at hpn
            rw [hl] at hpn
            cases hpn
            have := hWF.child_gt hl hmem
            omega
          rw [hlook qq, if_neg hqqc, if_neg hqqp, hpn]
          exact ⟨pn, by simp, hmem⟩
    · rw [if_neg hkp] at hknd
      refine ⟨hWF.id_eq hknd, hWF.children_nodup hknd, hWF.key_pos hknd, ?_, ?_, ?_⟩
      · rw [hcnt]
        have := hWF.key_lt hknd
        omega
      · intro c hc
        refine ⟨hWF.child_gt hknd hc, ?_⟩
        obtain ⟨cn, hcn, hcp⟩ := hWF.child_lookup hknd hc
        have hcc : ¬ c = a.counter := by
          have := hWF.key_lt hcn
          omega
        by_cases hck : par = some c
        · rw [hlook c, if_neg hcc, if_pos hck, hcn]
          refine ⟨{ cn with children_ids := cn.children_ids ++ [a.counter] }, by simp, ?_⟩
          simpa using hcp
        · rw [hlook c, if_neg hcc, if_neg hck, hcn]
          exact ⟨cn, by simp, hcp⟩
      · intro qq hqq
        simp only [Option.mem_toList, Option.mem_def] at hqq
        obtain ⟨pn, hpn, hmem⟩ := hWF.parent_lookup hknd hqq
        have hqqc : ¬ qq = a.counter := by
          have := hWF.key_lt hpn
          omega
        by_cases hqp : par = some qq
        · rw [hlook qq, if_neg hqqc, if_pos hqp, hpn]
          refine ⟨{ pn with children_ids := pn.children_ids ++ [a.counter] }, by simp, ?_⟩
          simp only [List.mem_append, List.mem_singleton]
          exact Or.inl hmem
        · rw [hlook qq, if_neg hqqc, if_neg hqp, hpn]
          exact ⟨pn, by simp, hmem⟩

end KubeFS

/-! ## Claim theorems: the inode arena (C5, C7, C8) -/

namespace KubeFS

open Arena

/-- C8: for every well-formed arena and every node id present in it,
`tree_walk_dfs` yields the pre-order sequence of the subtree rooted at that
id (the unique listing satisfying `PreOrdF`, which visits a node before its
children and each node's children in their stored insertion order), it
visits exactly the subtree members (`Desc`) exactly once, and it is
deterministic (any two `PreOrdF` listings coincide); it returns `none` when
the id is absent from the arena. -/
theorem claim_C8 {T : Type} (a : Arena T) (id : Nat) (hWF : WF a) :
    (a.get id = none → a.tree_walk_dfs id = none) ∧
    (∀ n, a.get id = some n →
      ∃ l, a.tree_walk_dfs id = some l ∧ PreOrdF a.map [id] l ∧
        (∀ l', PreOrdF a.map [id] l' → l' = l) ∧
        l.Nodup ∧ (∀ x, x ∈ l ↔ Desc a.map id x)) := by
  constructor
  · intro h
    unfold Arena.tree_walk_dfs
    simp [Arena.contains, h]
  · intro n hn
    obtain ⟨l, hdfs, hpre, hnd, hmem⟩ := tree_walk_dfs_of_WF hWF hn
    exact ⟨l, hdfs, hpre, fun l' h' => h'.unique l hpre, hnd, hmem⟩

/-- Witness for C8 on `sampleArena` rooted at 1 (expected pre-order
[1, 2, 4, 3]). -/
theorem claim_C8_witness :
    WF sampleArena ∧ sampleArena.get 1 = some ⟨1, none, [2, 3], 10⟩ ∧
      ((∃ l, sampleArena.tree_walk_dfs 1 = some l ∧ PreOrdF sampleArena.map [1] l ∧
          (∀ l', PreOrdF sampleArena.map [1] l' → l' = l) ∧
          l.Nodup ∧ (∀ x, x ∈ l ↔ Desc sampleArena.map 1 x)) ∧
        sampleArena.tree_walk_dfs 1 = some [1, 2, 4, 3] ∧
        sampleArena.tree_walk_dfs 7 = none) := by
  refine ⟨by decide, by decide, ?_, by decide, by decide⟩
  exact (claim_C8 sampleArena 1 (by decide)).2 ⟨1, none, [2, 3], 10⟩ (by decide)

/-- C5: deleting a present node returns exactly the ids of its subtree (the
duplicate-free pre-order list, whose members are precisely the `Desc`
descendants), removes each of them from the arena, detaches the deleted id
from its parent's children sequence, and leaves every other node (the
parent's other data included) unchanged; deleting an absent id returns
`none` and leaves the arena untouched. -/
theorem claim_C5 {T : Type} (a : Arena T) (id : Nat) (hWF : WF a) :
    (a.get id = none → a.delete_node id = (a, none)) ∧
    (∀ n, a.get id = some n →
      ∃ l, (a.delete_node id).2 = some l ∧
        a.tree_walk_dfs id = some l ∧
        l.Nodup ∧ (∀ x, x ∈ l ↔ Desc a.map id x) ∧
        (∀ x ∈ l, (a.delete_node id).1.get x = none) ∧
        (∀ q pn, n.parent_id = some q → a.get q = some pn →
          (a.delete_node id).1.get q =
            some { pn with children_ids := pn.children_ids.filter (fun c => c != id) } ∧
          id ∉ pn.children_ids.filter (fun c => c != id)) ∧
        (∀ x, x ∉ l → n.parent_id ≠ some x → (a.delete_node id).1.get x = a.get x) ∧
        (a.delete_node id).1.counter = a.counter) := by
  constructor
  · exact fun h => delete_node_absent h
  · intro n hn
    obtain ⟨l, hdfs, hpre, hnd, hmem⟩ := tree_walk_dfs_of_WF hWF hn
    obtain ⟨hret, hcnt, hlook⟩ := delete_node_run hn hdfs
    refine ⟨l, hret, hdfs, hnd, hmem, ?_, ?_, ?_, hcnt⟩
    · intro x hx
      show mlookup _ x = none
      rw [hlook x]
      simp [hx]
    · intro q pn hq hpn
      have hql : q ∉ l := by
        intro hcon
        have hdq := (hmem q).1 hcon
        have hle := Desc.le hWF hdq
        obtain ⟨pn', hpn', hmm⟩ := hWF.parent_lookup hn hq
        have := hWF.child_gt hpn' hmm
        omega
      constructor
      · show mlookup _ q = _
        rw [hlook q, if_neg hql, if_pos hq]
        rw [show mlookup a.map q = some pn from hpn]
        rfl
      · simp
    · intro x hxl hxp
      show mlookup _ x = mlookup _ x
      rw [hlook x, if_neg hxl, if_neg hxp]

/-- Witness for C5: deleting node 2 of `sampleArena` removes [2, 4],
detaches 2 from node 1, and leaves node 3 untouched. -/
theorem claim_C5_witness :
    WF sampleArena ∧ sampleArena.get 2 = some ⟨2, some 1, [4], 20⟩ ∧
      (∃ l, (sampleArena.delete_node 2).2 = some l ∧
        sampleArena.tree_walk_dfs 2 = some l ∧
        l.Nodup ∧ (∀ x, x ∈ l ↔ Desc sampleArena.map 2 x) ∧
        (∀ x ∈ l, (sampleArena.delete_node 2).1.get x = none) ∧
        (∀ q pn, (⟨2, some 1, [4], 20⟩ : ArenaNode Nat).parent_id = some q →
          sampleArena.get q = some pn →
          (sampleArena.delete_node 2).1.get q =
            some { pn with children_ids := pn.children_ids.filter (fun c => c != 2) } ∧
          2 ∉ pn.children_ids.filter (fun c => c != 2)) ∧
        (∀ x, x ∉ l → (⟨2, some 1, [4], 20⟩ : ArenaNode Nat).parent_id ≠ some x →
          (sampleArena.delete_node 2).1.get x = sampleArena.get x) ∧
        (sampleArena.delete_node 2).1.counter = sampleArena.counter) ∧
      (sampleArena.delete_node 2).2 = some [2, 4] ∧
      (sampleArena.delete_node 2).1.get 1 = some ⟨1, none, [3], 10⟩ ∧
      (sampleArena.delete_node 2).1.get 3 = some ⟨3, some 1, [], 30⟩ ∧
      (sampleArena.delete_node 2).1.get 2 = none ∧
      (sampleArena.delete_node 2).1.get 4 = none ∧
      (sampleArena.delete_node 9).2 = none := by
  refine ⟨by decide, by decide, ?_, by decide, by decide, by decide, by decide, by decide,
    by decide⟩
  exact (claim_C5 sampleArena 2 (by decide)).2 ⟨2, some 1, [4], 20⟩ (by decide)

end KubeFS

/-! ## Claim theorem: add / id allocation (C7) -/

namespace KubeFS

open Arena

theorem addSeq_spec {T : Type} :
    ∀ (ops : List (T × Option Nat)) (a : Arena T) (acc : List Nat),
      (ops.foldl (fun acc op => ((acc.1.add op.1 op.2).1, acc.2 ++ [(acc.1.add op.1 op.2).2]))
          (a, acc)).2 = acc ++ List.range' a.counter ops.length ∧
      (ops.foldl (fun acc op => ((acc.1.add op.1 op.2).1, acc.2 ++ [(acc.1.add op.1 op.2).2]))
          (a, acc)).1.counter = a.counter + ops.length := by
  intro ops
  induction ops with
  | nil =>
    intro a acc
    simp [List.range']
  | cons op ops ih =>
    intro a acc
    simp only [List.foldl_cons]
    have h1 := ih (a.add op.1 op.2).1 (acc ++ [(a.add op.1 op.2).2])
    rw [h1.1, h1.2, add_counter, add_id]
    constructor
    · rw [List.length_cons, List.range'_succ]
      simp
    · simp [List.length_cons]
      omega

/-- C7: a sequence of `add` calls starting from any arena with a positive
counter returns exactly the ids `counter, counter+1, ...` (strictly
increasing, hence pairwise distinct and never reused; all non-zero), bumps
the counter by one per insertion (and `delete_node` never lowers it, so ids
are never reissued), the fresh counter of `Arena::new` is 1, and `get` on
the id returned by an `add` immediately yields the inserted payload. -/
theorem claim_C7 {T : Type} (a : Arena T) (ops : List (T × Option Nat))
    (h : 0 < a.counter) :
    (a.addSeq ops).2 = List.range' a.counter ops.length ∧
    (a.addSeq ops).1.counter = a.counter + ops.length ∧
    (a.addSeq ops).2.Nodup ∧
    (∀ i ∈ (a.addSeq ops).2, i ≠ 0) ∧
    (Arena.new : Arena T).counter = 1 ∧
    (∀ (b : Arena T) (j : Nat), (b.delete_node j).1.counter = b.counter) ∧
    (∀ (b : Arena T) (p : T) (par : Option Nat),
      ((b.add p par).1.get (b.add p par).2).map ArenaNode.payload = some p) := by
  have hspec := addSeq_spec ops a []
  have hids : (a.addSeq ops).2 = List.range' a.counter ops.length := by
    have := hspec.1
    simpa [Arena.addSeq] using this
  have hcnt : (a.addSeq ops).1.counter = a.counter + ops.length := hspec.2
  refine ⟨hids, hcnt, ?_, ?_, rfl, ?_, ?_⟩
  · rw [hids]
    exact List.nodup_range' _ _
  · intro i hi
    rw [hids] at hi
    have := List.mem_range'_1.1 hi
    omega
  · intro b j
    unfold Arena.delete_node
    cases hg : b.get j with
    | none => rfl
    | some node =>
      cases hdfs : b.tree_walk_dfs j with
      | none => rfl
      | some dl => rfl
  · intro b p par
    cases par with
    | none =>
      simp [Arena.add, Arena.generate_id, Arena.get]
    | some pid =>
      simp only [Arena.add, Arena.generate_id, Arena.get]
      rw [mlookup_mupdate]
      by_cases hp : b.counter = pid
      · simp [← hp]
      · simp [hp]

/-- Witness for C7: three adds on a fresh arena yield ids [1, 2, 3]. -/
theorem claim_C7_witness :
    0 < (Arena.new : Arena Nat).counter ∧
      (((Arena.new : Arena Nat).addSeq [(10, none), (20, some 1), (30, some 1)]).2 =
          List.range' 1 3 ∧
        ((Arena.new : Arena Nat).addSeq [(10, none), (20, some 1), (30, some 1)]).1.counter =
          1 + 3 ∧
        (((Arena.new : Arena Nat).addSeq [(10, none), (20, some 1), (30, some 1)]).2).Nodup ∧
        (∀ i ∈ ((Arena.new : Arena Nat).addSeq [(10, none), (20, some 1), (30, some 1)]).2,
          i ≠ 0) ∧
        (Arena.new : Arena Nat).counter = 1 ∧
        (∀ (b : Arena Nat) (j : Nat), (b.delete_node j).1.counter = b.counter) ∧
        (∀ (b : Arena Nat) (p : Nat) (par : Option Nat),
          ((b.add p par).1.get (b.add p par).2).map ArenaNode.payload = some p)) :=
  ⟨by decide, claim_C7 Arena.new [(10, none), (20, some 1), (30, some 1)] (by decide)⟩

end KubeFS

/-! ## Claim theorems: attribute projection (C9) and inode 0 (C10) -/

namespace KubeFS

open KubeVirtualFs

/-- C9: the attribute projection factors through (startup instant, node id,
kind class) -- it is a pure function of the node's kind applied uniformly,
never of the individual entity -- and the table assigns: every directory
kind (Virtual, Context, ApiResourceDirectory, ResourceDirectory) zero size,
mode 0o755 and directory type; the resource-file kind the fixed placeholder
size 10000, mode 0o655 and regular-file type with uid 1000; the
informational kinds (ClusterInfoFile, LogFile) size 10000, mode 0o655 and
regular-file type with uid 10000; every timestamp equals the process
startup instant and group/owner ids are fixed constants. -/
theorem claim_C9 (vfs : KubeVirtualFs) (node : ArenaNode KubeFileNode) :
    vfs.map_kube_file_to_attr node =
      attrTable vfs.startup node.id (attrClassOf node.payload) ∧
    (∀ s i : Nat, ∀ c : AttrClass,
      (attrTable s i c).atime = s ∧ (attrTable s i c).mtime = s ∧
      (attrTable s i c).ctime = s ∧ (attrTable s i c).crtime = s ∧
      (attrTable s i c).ino = i ∧ (attrTable s i c).gid = 1000 ∧
      (attrTable s i c).nlink = 1 ∧ (attrTable s i c).blksize = 512 ∧
      (attrTable s i c).rdev = 0 ∧ (attrTable s i c).flags = 0 ∧
      (attrTable s i c).blocks = 0) ∧
    (∀ s i : Nat,
      (attrTable s i AttrClass.DirectoryKind).size = 0 ∧
      (attrTable s i AttrClass.DirectoryKind).perm = 0o755 ∧
      (attrTable s i AttrClass.DirectoryKind).kind = FileTypeT.Directory ∧
      (attrTable s i AttrClass.DirectoryKind).uid = 1000) ∧
    (∀ s i : Nat,
      (attrTable s i AttrClass.ResourceFileKind).size = 10000 ∧
      (attrTable s i AttrClass.ResourceFileKind).perm = 0o655 ∧
      (attrTable s i AttrClass.ResourceFileKind).kind = FileTypeT.RegularFile ∧
      (attrTable s i AttrClass.ResourceFileKind).uid = 1000) ∧
    (∀ s i : Nat,
      (attrTable s i AttrClass.InfoFileKind).size = 10000 ∧
      (attrTable s i AttrClass.InfoFileKind).perm = 0o655 ∧
      (attrTable s i AttrClass.InfoFileKind).kind = FileTypeT.RegularFile ∧
      (attrTable s i AttrClass.InfoFileKind).uid = 10000) ∧
    (attrClassOf (KubeFileNode.Virtual "x") = AttrClass.DirectoryKind ∧
      attrClassOf (KubeFileNode.Context "x") = AttrClass.DirectoryKind ∧
      (∀ api, attrClassOf (KubeFileNode.ApiResourceDirectory api) = AttrClass.DirectoryKind) ∧
      (∀ r, attrClassOf (KubeFileNode.ResourceDirectory r) = AttrClass.DirectoryKind) ∧
      (∀ r, attrClassOf (KubeFileNode.ResourceFile r) = AttrClass.ResourceFileKind) ∧
      attrClassOf KubeFileNode.ClusterInfoFile = AttrClass.InfoFileKind ∧
      (∀ r, attrClassOf (KubeFileNode.LogFile r) = AttrClass.InfoFileKind)) := by
  refine ⟨?_, ?_, ?_, ?_, ?_, ?_⟩
  · obtain ⟨i, par, ch, pl⟩ := node
    cases pl <;> rfl
  · intro s i c
    cases c <;> simp [attrTable]
  · intro s i
    simp [attrTable]
  · intro s i
    simp [attrTable]
  · intro s i
    simp [attrTable]
  · exact ⟨rfl, rfl, fun _ => rfl, fun _ => rfl, fun _ => rfl, rfl, fun _ => rfl⟩

/-- C10: every modelled protocol operation invoked with inode 0 panics
inside `NodeId::new` (the `NonZeroU64` unwrap) for every filesystem state
-- the panic propagates out of the callback instead of an ENOENT reply. -/
theorem claim_C10 (vfs : KubeVirtualFs) (name : String) (offset cap : Nat) :
    KubeFuse.lookup vfs 0 name =
      Except.error "NodeId.new: NonZeroU64::new(0).unwrap() panicked" ∧
    KubeFuse.getattr vfs 0 =
      Except.error "NodeId.new: NonZeroU64::new(0).unwrap() panicked" ∧
    KubeFuse.opendir vfs 0 =
      Except.error "NodeId.new: NonZeroU64::new(0).unwrap() panicked" ∧
    KubeFuse.readdir vfs 0 offset cap =
      Except.error "NodeId.new: NonZeroU64::new(0).unwrap() panicked" ∧
    KubeFuse.read vfs 0 offset =
      Except.error "NodeId.new: NonZeroU64::new(0).unwrap() panicked" := by
  exact ⟨rfl, rfl, rfl, rfl, rfl⟩

end KubeFS

/-! ## Claim theorems: readdir pagination (C1), provider failure (C2),
manifest reads (C6) -/

namespace KubeFS

open KubeVirtualFs KubeFuse

/-- C1 evaluation at the spec's own scenario (10 children, capacity 3,
each call resumed at the previous call's last emitted next-offset): the
first page is fine, but the page at offset 3 carries next-offsets 7, 8, 9
instead of the index-plus-one values 4, 5, 6, because the loop adds the
offset to an enumeration index that already includes the skip; following
the protocol the third call lands at offset 9 and the entries at indices
6, 7 and 8 (inos 106, 107, 108) are never emitted. -/
theorem claim_C1 :
    (readdirPage filesTen 0 3).map (fun e => (e.1, e.2.1)) = [(100, 1), (101, 2), (102, 3)] ∧
    (readdirPage filesTen 3 3).map (fun e => (e.1, e.2.1)) = [(103, 7), (104, 8), (105, 9)] ∧
    (readdirPage filesTen 3 3).map (fun e => e.2.1) ≠ [4, 5, 6] ∧
    (readdirPage filesTen 9 3).map (fun e => (e.1, e.2.1)) = [(109, 19)] ∧
    readdirPage filesTen 19 3 = [] ∧
    106 ∉ (readdirPage filesTen 0 3 ++ readdirPage filesTen 3 3 ++
      readdirPage filesTen 9 3 ++ readdirPage filesTen 19 3).map (fun e => e.1) ∧
    filesTen.length = 10 := by
  refine ⟨by decide, by decide, by decide, by decide, by decide, by decide, by decide⟩

/-- C2 evaluation: when the provider's namespace listing fails, reconciling
(or reading) the Context root panics (the `.unwrap()` on the provider
result), so the protocol operations abort with the panic instead of
replying with a generic I/O error.  (No partial mutation happens: the
panic aborts before any delete/add.) -/
theorem claim_C2 :
    vfsProviderDown.sync_leafs_for_inode 1 =
      Except.error "get_leafs_for_node: list_namespaces().unwrap() panicked" ∧
    KubeFuse.readdir vfsProviderDown 1 0 10 =
      Except.error "get_leafs_for_node: list_namespaces().unwrap() panicked" ∧
    KubeFuse.lookup vfsProviderDown 1 "cluster_info" =
      Except.error "get_leafs_for_node: list_namespaces().unwrap() panicked" ∧
    KubeFuse.readdir vfsProviderDown 1 0 10 ≠
      Except.ok (vfsProviderDown, ReaddirReply.errENOENT) := by
  exact ⟨rfl, rfl, rfl, fun hcon => Except.noConfusion hcon⟩

/-- C6 evaluation: the manifest materialization is an unimplemented TODO --
`get_kube_manifest` returns `Ok("")` for every resource file, independent
of the underlying cluster object, so a read at offset 0 yields zero bytes
instead of the serialized manifest, and a read at any positive offset
(valid for the intended content length) panics slicing the empty string. -/
theorem claim_C6 :
    vfsWithFile.get_kube_manifest 2 = Except.ok (Except.ok "") ∧
    vfsWithFileOther.get_kube_manifest 2 = Except.ok (Except.ok "") ∧
    KubeFuse.read vfsWithFile 2 0 = Except.ok (ReadReply.data "") ∧
    KubeFuse.read vfsWithFileOther 2 0 = Except.ok (ReadReply.data "") ∧
    KubeFuse.read vfsWithFile 2 5 =
      Except.error "read: byte range start out of bounds panicked" := by
  exact ⟨rfl, rfl, rfl, rfl, rfl⟩

end KubeFS

/-! ## Lemma layer: descendant transfer across deletions -/

namespace KubeFS

open Arena

theorem Desc.mono {T : Type} {m m' : NodeMap T}
    (h : ∀ k n', mlookup m' k = some n' →
      ∃ n, mlookup m k = some n ∧ ∀ c ∈ n'.children_ids, c ∈ n.children_ids) :
    ∀ {r x : Nat}, Desc m' r x → Desc m r x := by
  intro r x hd
  induction hd with
  | refl _ => exact Desc.refl _
  | @step id c x n' hlook hc hdd ih =>
    obtain ⟨n, hn, hsub⟩ := h id n' hlook
    exact Desc.step n hn (hsub c hc) ih

theorem Desc.transfer {T : Type} {m m' : NodeMap T} {r x : Nat} (h : Desc m r x) :
    ∀ (hpres : ∀ y, Desc m r y → mlookup m' y = mlookup m y), Desc m' r x := by
  induction h with
  | refl _ =>
    intro _
    exact Desc.refl _
  | @step id c x n hlook hc hd ih =>
    intro hpres
    have hstep : ∀ y, Desc m c y → Desc m id y := fun y hy => Desc.step n hlook hc hy
    have hlook' : mlookup m' id = some n := by
      rw [hpres id (Desc.refl id)]
      exact hlook
    exact Desc.step n hlook' hc (ih (fun y hy => hpres y (hstep y hy)))

theorem delete_node_none {T : Type} (a : Arena T) (c x : Nat)
    (h : mlookup a.map x = none) : mlookup (a.delete_node c).1.map x = none := by
  cases hg : a.get c with
  | none =>
    rw [delete_node_absent hg]
    exact h
  | some node =>
    cases hdfs : a.tree_walk_dfs c with
    | none =>
      unfold Arena.delete_node
      rw [hg, hdfs]
      exact h
    | some l =>
      obtain ⟨_, _, hlook⟩ := delete_node_run hg hdfs
      rw [hlook x]
      by_cases hxl : x ∈ l
      · simp [hxl]
      · by_cases hxp : node.parent_id = some x
        · simp [hxl, hxp, h]
        · simp [hxl, hxp, h]

theorem foldl_delete_none {T : Type} (rem : List Nat) :
    ∀ (a : Arena T) (x : Nat), mlookup a.map x = none →
      mlookup (rem.foldl (fun acc i => (acc.delete_node i).1) a).map x = none := by
  induction rem with
  | nil =>
    intro a x h
    exact h
  | cons c rest ih =>
    intro a x h
    exact ih _ x (delete_node_none a c x h)

end KubeFS

/-! ## Lemma layer: the reconciliation folds -/

namespace KubeFS

open Arena

theorem filter_ne_notmem (l : List Nat) (c : Nat) (rest : List Nat) :
    (l.filter (fun x => x != c)).filter (fun x => decide (x ∉ rest)) =
      l.filter (fun x => decide (x ∉ c :: rest)) := by
  rw [List.filter_filter]
  apply List.filter_congr
  intro x _
  by_cases h1 : x = c
  · simp [h1]
  · by_cases h2 : x ∈ rest <;> simp [h1, h2]

theorem delete_fold {T : Type} :
    ∀ (rem : List Nat) (a : Arena T) (id : Nat) (dn : ArenaNode T),
      WF a → mlookup a.map id = some dn →
      (∀ c ∈ rem, c ∈ dn.children_ids) → rem.Nodup →
      WF (rem.foldl (fun acc i => (acc.delete_node i).1) a) ∧
      (rem.foldl (fun acc i => (acc.delete_node i).1) a).counter = a.counter ∧
      mlookup (rem.foldl (fun acc i => (acc.delete_node i).1) a).map id =
        some { dn with children_ids := dn.children_ids.filter (fun c => decide (c ∉ rem)) } ∧
      (∀ x, (∀ c ∈ rem, ¬ Desc a.map c x) → x ≠ id →
        mlookup (rem.foldl (fun acc i => (acc.delete_node i).1) a).map x = mlookup a.map x) ∧
      (∀ c ∈ rem, ∀ x, Desc a.map c x →
        mlookup (rem.foldl (fun acc i => (acc.delete_node i).1) a).map x = none) := by
  intro rem
  induction rem with
  | nil =>
    intro a id dn hWF hdn _ _
    refine ⟨hWF, rfl, ?_, fun x _ _ => rfl, by simp⟩
    simpa using hdn
  | cons c rest ih =>
    intro a id dn hWF hdn hsub hnd
    have hc_mem : c ∈ dn.children_ids := hsub c (List.mem_cons_self c rest)
    obtain ⟨cn, hcl, hcp⟩ := hWF.child_lookup hdn hc_mem
    obtain ⟨lc, hdfs, hprec, hndc, hmemc⟩ := tree_walk_dfs_of_WF hWF hcl
    obtain ⟨hret, hcntd, hlookd⟩ := delete_node_run hcl hdfs
    have hWFd : WF (a.delete_node c).1 := delete_preserves_WF hWF hcl
    have hidc : id < c := hWF.child_gt hdn hc_mem
    have hidnl : id ∉ lc := by
      intro hcon
      have h1 := Desc.le hWF ((hmemc id).1 hcon)
      omega
    have hlook_id : mlookup (a.delete_node c).1.map id =
        some { dn with children_ids := dn.children_ids.filter (fun x => x != c) } := by
      rw [hlookd id, if_neg hidnl, if_pos hcp, hdn]
      rfl
    have hsubmap : ∀ k n', mlookup (a.delete_node c).1.map k = some n' →
        ∃ n, mlookup a.map k = some n ∧ ∀ x ∈ n'.children_ids, x ∈ n.children_ids := by
      intro k n' hk
      rw [hlookd k] at hk
      by_cases hkl : k ∈ lc
      · simp [hkl] at hk
      · rw [if_neg hkl] at hk
        by_cases hkp : cn.parent_id = some k
        · rw [if_pos hkp] at hk
          cases hok : mlookup a.map k with
          | none =>
            rw [hok] at hk
            simp at hk
          | some n =>
            rw [hok] at hk
            simp only [Option.map_some'] at hk
            refine ⟨n, rfl, ?_⟩
            rw [← Option.some.inj hk]
            intro x hx
            exact (List.mem_filter.1 hx).1
        · rw [if_neg hkp] at hk
          exact ⟨n', hk, fun x hx => hx⟩
    have hcrest : c ∉ rest := (List.nodup_cons.mp hnd).1
    have hsub' : ∀ c' ∈ rest,
        c' ∈ ({ dn with children_ids := dn.children_ids.filter (fun x => x != c) } :
          ArenaNode T).children_ids := by
      intro c' hc'
      have h1 : c' ∈ dn.children_ids := hsub c' (List.mem_cons_of_mem c hc')
      have h2 : c' ≠ c := by
        intro hcon
        rw [hcon] at hc'
        exact hcrest hc'
      simp [List.mem_filter, h1, h2]
    have IH := ih (a.delete_node c).1 id
      { dn with children_ids := dn.children_ids.filter (fun x => x != c) }
      hWFd hlook_id hsub' (List.nodup_cons.mp hnd).2
    have hfold : (c :: rest).foldl (fun acc i => (acc.delete_node i).1) a =
        rest.foldl (fun acc i => (acc.delete_node i).1) (a.delete_node c).1 := by
      simp
    rw [hfold]
    refine ⟨IH.1, by rw [IH.2.1, hcntd], ?_, ?_, ?_⟩
    · rw [IH.2.2.1]
      simp only
      rw [filter_ne_notmem]
    · intro x hx hxid
      have hx1 : ∀ c' ∈ rest, ¬ Desc (a.delete_node c).1.map c' x := by
        intro c' hc' hcon
        exact hx c' (List.mem_cons_of_mem c hc') (Desc.mono hsubmap hcon)
      rw [IH.2.2.2.1 x hx1 hxid, hlookd x]
      have hxlc : x ∉ lc := by
        intro hcon
        exact hx c (List.mem_cons_self c rest) ((hmemc x).1 hcon)
      rw [if_neg hxlc]
      have hxp : ¬ cn.parent_id = some x := by
        rw [hcp]
        intro hcon
        exact hxid (Option.some.inj hcon).symm
      rw [if_neg hxp]
    · intro c' hc' x hdx
      rcases List.mem_cons.mp hc' with h1 | h1
      · have hxlc : x ∈ lc := (hmemc x).2 (by rw [← h1]; exact hdx)
        have h2 : mlookup (a.delete_node c).1.map x = none := by
          rw [hlookd x]
          simp [hxlc]
        exact foldl_delete_none rest _ x h2
      · have hcne : c' ≠ c := by
          intro hcon
          rw [hcon] at h1
          exact hcrest h1
        have hc'mem : c' ∈ dn.children_ids := hsub c' (List.mem_cons_of_mem c h1)
        have hpres : ∀ y, Desc a.map c' y → mlookup (a.delete_node c).1.map y = mlookup a.map y := by
          intro y hy
          rw [hlookd y]
          have hylc : y ∉ lc := by
            intro hcon
            exact siblings_no_common_desc hWF hdn hc_mem hc'mem (Ne.symm hcne) y
              ((hmemc y).1 hcon) hy
          rw [if_neg hylc]
          have hyp : ¬ cn.parent_id = some y := by
            rw [hcp]
            intro hcon
            have hyid : y = id := (Option.some.inj hcon).symm
            have h3 := Desc.le hWF hy
            have h4 := hWF.child_gt hdn hc'mem
            omega
          rw [if_neg hyp]
        have hdx' : Desc (a.delete_node c).1.map c' x := Desc.transfer hdx hpres
        exact IH.2.2.2.2 c' h1 x hdx'

end KubeFS

namespace KubeFS

open Arena

theorem add_fold {T : Type} :
    ∀ (ps : List T) (a : Arena T) (id : Nat) (dn : ArenaNode T),
      WF a → mlookup a.map id = some dn →
      WF (ps.foldl (fun acc p => (acc.add p (some id)).1) a) ∧
      (ps.foldl (fun acc p => (acc.add p (some id)).1) a).counter = a.counter + ps.length ∧
      mlookup (ps.foldl (fun acc p => (acc.add p (some id)).1) a).map id =
        some { dn with children_ids := dn.children_ids ++ List.range' a.counter ps.length } ∧
      (∀ x, x ≠ id → x < a.counter →
        mlookup (ps.foldl (fun acc p => (acc.add p (some id)).1) a).map x = mlookup a.map x) ∧
      (∀ j (hj : j < ps.length),
        mlookup (ps.foldl (fun acc p => (acc.add p (some id)).1) a).map (a.counter + j) =
          some ⟨a.counter + j, some id, [], ps.get ⟨j, hj⟩⟩) := by
  intro ps
  induction ps with
  | nil =>
    intro a id dn hWF hdn
    refine ⟨hWF, by simp, ?_, fun x _ _ => rfl, ?_⟩
    · simpa using hdn
    · intro j hj
      simp at hj
  | cons p ps ih =>
    intro a id dn hWF hdn
    have hidlt : id < a.counter := hWF.key_lt hdn
    have hne : some id ≠ some a.counter := by
      intro hcon
      have := Option.some.inj hcon
      omega
    have hWFa : WF (a.add p (some id)).1 :=
      add_preserves_WF hWF p (Or.inr ⟨id, dn, rfl, hdn⟩)
    have hlookA := add_lookup a p (some id) hne
    have hidne : ¬ id = a.counter := by omega
    have hdn' : mlookup (a.add p (some id)).1.map id =
        some { dn with children_ids := dn.children_ids ++ [a.counter] } := by
      rw [hlookA id, if_neg hidne, if_pos rfl, hdn]
      rfl
    have hcntA : (a.add p (some id)).1.counter = a.counter + 1 := add_counter a p (some id)
    have IH := ih (a.add p (some id)).1 id
      { dn with children_ids := dn.children_ids ++ [a.counter] } hWFa hdn'
    have hfold : (p :: ps).foldl (fun acc q => (acc.add q (some id)).1) a =
        ps.foldl (fun acc q => (acc.add q (some id)).1) (a.add p (some id)).1 := by
      simp
    rw [hfold]
    refine ⟨IH.1, ?_, ?_, ?_, ?_⟩
    · rw [IH.2.1, hcntA]
      simp
      omega
    · rw [IH.2.2.1]
      simp only [hcntA]
      rw [List.length_cons, List.range'_succ]
      simp
    · intro x hxid hxlt
      have hxlt' : x < (a.add p (some id)).1.counter := by
        rw [hcntA]
        omega
      rw [IH.2.2.2.1 x hxid hxlt', hlookA x]
      have hx1 : ¬ x = a.counter := by omega
      have hx2 : ¬ (some id = some x) := by
        intro hcon
        exact hxid (Option.some.inj hcon).symm
      rw [if_neg hx1, if_neg hx2]
    · intro j hj
      cases j with
      | zero =>
        have hc1 : ¬ a.counter = id := by omega
        have hc2 : a.counter < (a.add p (some id)).1.counter := by
          rw [hcntA]
          omega
        have h3 := IH.2.2.2.1 a.counter hc1 hc2
        rw [Nat.add_zero]
        rw [h3, hlookA a.counter, if_pos rfl]
        rfl
      | succ j =>
        have hj' : j < ps.length := by
          simp at hj
          omega
        have h4 := IH.2.2.2.2 j hj'
        rw [hcntA] at h4
        have harith : a.counter + 1 + j = a.counter + (j + 1) := by omega
        rw [harith] at h4
        rw [h4]
        rfl

end KubeFS

/-! ## Lemma layer: semantic equality and the old-leaf listing -/

namespace KubeFS

open Arena KubeVirtualFs

theorem beq_comm_str (l r : String) : (l == r) = (r == l) := by
  by_cases h : l = r
  · rw [h]
  · rw [beq_eq_false_iff_ne.mpr h, beq_eq_false_iff_ne.mpr (Ne.symm h)]

theorem apiTripleEq_comm (l r : KubeApiResourceNode) :
    (l.kind == r.kind && l.group == r.group && l.version == r.version) =
      (r.kind == l.kind && r.group == l.group && r.version == l.version) := by
  rw [beq_comm_str l.kind r.kind, beq_comm_str l.group r.group,
    beq_comm_str l.version r.version]

theorem kubeFileNodeEq_refl (n : KubeFileNode) : kubeFileNodeEq n n = true := by
  have hapi : ∀ a : KubeApiResourceNode,
      (a.kind == a.kind && a.group == a.group && a.version == a.version) = true := by
    intro a
    simp
  cases n with
  | Virtual l => exact beq_self_eq_true l
  | Context l => exact beq_self_eq_true l
  | ClusterInfoFile => rfl
  | ApiResourceDirectory a => exact hapi a
  | ResourceDirectory r => exact beq_self_eq_true r.uuid
  | ResourceFile r => exact beq_self_eq_true r.uuid
  | LogFile r => exact beq_self_eq_true r.uuid

theorem kubeFileNodeEq_symm (x y : KubeFileNode) : kubeFileNodeEq x y = kubeFileNodeEq y x := by
  cases x <;> cases y <;>
    first
      | rfl
      | exact beq_comm_str _ _
      | exact apiTripleEq_comm _ _

theorem old_leaf_of_eq {a : Arena KubeFileNode} {id : Nat} {dn : ArenaNode KubeFileNode}
    (hdn : mlookup a.map id = some dn) :
    old_leaf_of a id =
      dn.children_ids.filterMap
        (fun c => (mlookup a.map c).map (fun n => (n.id, n.payload))) := by
  have hcon : a.contains id = true := by
    simp [Arena.contains, Arena.get, hdn]
  unfold old_leaf_of Arena.get_children
  rw [hcon]
  have hget : a.get id = some dn := hdn
  rw [hget]
  simp [List.map_filterMap, Arena.get]

theorem old_leaf_mem {a : Arena KubeFileNode} {id : Nat} {dn : ArenaNode KubeFileNode}
    (hWF : WF a) (hdn : mlookup a.map id = some dn) :
    ∀ pr ∈ old_leaf_of a id,
      pr.1 ∈ dn.children_ids ∧ ∃ cn, mlookup a.map pr.1 = some cn ∧ cn.payload = pr.2 := by
  rw [old_leaf_of_eq hdn]
  intro pr hpr
  obtain ⟨c, hc, hres⟩ := List.mem_filterMap.1 hpr
  cases hoc : mlookup a.map c with
  | none =>
    rw [hoc] at hres
    simp at hres
  | some cn =>
    rw [hoc] at hres
    simp only [Option.map_some'] at hres
    have hid : cn.id = c := hWF.id_eq hoc
    have hpr1 : pr.1 = c := by
      rw [← Option.some.inj hres, hid]
    rw [hpr1]
    refine ⟨hc, cn, hoc, ?_⟩
    rw [← Option.some.inj hres]

theorem old_leaf_mem_rev {a : Arena KubeFileNode} {id : Nat} {dn : ArenaNode KubeFileNode}
    (hWF : WF a) (hdn : mlookup a.map id = some dn) :
    ∀ c ∈ dn.children_ids, ∃ cn, mlookup a.map c = some cn ∧
      (c, cn.payload) ∈ old_leaf_of a id := by
  intro c hc
  obtain ⟨cn, hcn, _⟩ := hWF.child_lookup hdn hc
  refine ⟨cn, hcn, ?_⟩
  rw [old_leaf_of_eq hdn]
  apply List.mem_filterMap.2
  refine ⟨c, hc, ?_⟩
  rw [hcn]
  simp [hWF.id_eq hcn]

theorem get_leafs_payload_only (client : KubeClient)
    (apis : List (ApiResource × ApiCapabilities)) (a a' : Arena KubeFileNode) (st st' : Nat)
    (n n' : ArenaNode KubeFileNode) (hp : n.payload = n'.payload) :
    KubeVirtualFs.get_leafs_for_node ⟨client, apis, a, st⟩ n =
      KubeVirtualFs.get_leafs_for_node ⟨client, apis, a', st'⟩ n' := by
  unfold KubeVirtualFs.get_leafs_for_node
  rw [hp]

end KubeFS

/-! ## Lemma layer: running one reconciliation -/

namespace KubeFS

open Arena KubeVirtualFs

theorem sync_run (client : KubeClient) (apis : List (ApiResource × ApiCapabilities))
    (a : Arena KubeFileNode) (st ino : Nat) (dn : ArenaNode KubeFileNode)
    (d : List KubeFileNode) (hWF : WF a) (hdn : mlookup a.map ino = some dn)
    (hleafs : KubeVirtualFs.get_leafs_for_node ⟨client, apis, a, st⟩ dn = Except.ok d) :
    KubeVirtualFs.sync_leafs_for_inode ⟨client, apis, a, st⟩ ino =
      Except.ok ⟨client, apis,
        (reconcile_diff d (old_leaf_of a ino)).1.foldl
          (fun acc n => (acc.add n (some ino)).1)
          ((reconcile_diff d (old_leaf_of a ino)).2.foldl
            (fun acc i => (acc.delete_node i).1) a), st⟩ := by
  have hne0 : ¬ ino = 0 := by
    have := hWF.key_pos hdn
    omega
  have h0 : NodeId.new ino = Except.ok ino := by
    unfold NodeId.new
    simp [hne0]
  have hget : a.get ino = some dn := hdn
  unfold KubeVirtualFs.sync_leafs_for_inode
  simp only [h0, hget, hleafs]

theorem sync_run_missing (client : KubeClient) (apis : List (ApiResource × ApiCapabilities))
    (a : Arena KubeFileNode) (st ino : Nat) (hne0 : ino ≠ 0)
    (hdn : mlookup a.map ino = none) :
    KubeVirtualFs.sync_leafs_for_inode ⟨client, apis, a, st⟩ ino =
      Except.ok ⟨client, apis, a, st⟩ := by
  have h0 : NodeId.new ino = Except.ok ino := by
    unfold NodeId.new
    simp [hne0]
  have hget : a.get ino = none := hdn
  unfold KubeVirtualFs.sync_leafs_for_inode
  simp only [h0, hget]

end KubeFS

/-! ## Claim theorem: reconciliation convergence (C4) -/

namespace KubeFS

open Arena KubeVirtualFs

/-- C4: for every well-formed state in which a directory's actual children
are A, B, C (at ids ia, ib, ic) and the provider-computed desired list is
B', C', D with B' and C' semantically equal to B and C and D matching
nothing (all comparisons by the `PartialEq` semantic equality),
one reconciliation computes the diff (to_add = [D], to_remove = [ia]),
deletes exactly A's subtree, adds exactly one new node for D under the
directory, and leaves B and C with their original NodeIds and unchanged
nodes; every node outside A's subtree other than the directory itself is
untouched. -/
theorem claim_C4 (client : KubeClient) (apis : List (ApiResource × ApiCapabilities))
    (a : Arena KubeFileNode) (st ino ia ib ic : Nat)
    (dn na nb nc : ArenaNode KubeFileNode) (d : List KubeFileNode) (Bd Cd Dd : KubeFileNode)
    (hWF : WF a)
    (hdn : mlookup a.map ino = some dn)
    (hch : dn.children_ids = [ia, ib, ic])
    (hna : mlookup a.map ia = some na)
    (hnb : mlookup a.map ib = some nb)
    (hnc : mlookup a.map ic = some nc)
    (hleafs : KubeVirtualFs.get_leafs_for_node ⟨client, apis, a, st⟩ dn = Except.ok d)
    (hd : d = [Bd, Cd, Dd])
    (hBB : kubeFileNodeEq Bd nb.payload = true)
    (hCC : kubeFileNodeEq Cd nc.payload = true)
    (hBA : kubeFileNodeEq Bd na.payload = false)
    (hCA : kubeFileNodeEq Cd na.payload = false)
    (hDA : kubeFileNodeEq Dd na.payload = false)
    (hAD : kubeFileNodeEq na.payload Dd = false)
    (hBD : kubeFileNodeEq nb.payload Dd = false)
    (hCD : kubeFileNodeEq nc.payload Dd = false) :
    reconcile_diff d (old_leaf_of a ino) = ([Dd], [ia]) ∧
    ∃ l a2, a.tree_walk_dfs ia = some l ∧ (∀ x, x ∈ l ↔ Desc a.map ia x) ∧
      KubeVirtualFs.sync_leafs_for_inode ⟨client, apis, a, st⟩ ino =
        Except.ok ⟨client, apis, a2, st⟩ ∧
      (∀ x ∈ l, mlookup a2.map x = none) ∧
      mlookup a2.map a.counter = some ⟨a.counter, some ino, [], Dd⟩ ∧
      mlookup a2.map ib = some nb ∧ mlookup a2.map ic = some nc ∧
      mlookup a2.map ino = some { dn with children_ids := [ib, ic, a.counter] } ∧
      (∀ x, x ∉ l → x ≠ ino → x ≠ a.counter → mlookup a2.map x = mlookup a.map x) ∧
      a2.counter = a.counter + 1 := by
  have hia_mem : ia ∈ dn.children_ids := by
    rw [hch]
    simp
  have hib_mem : ib ∈ dn.children_ids := by
    rw [hch]
    simp
  have hic_mem : ic ∈ dn.children_ids := by
    rw [hch]
    simp
  have hia_id : na.id = ia := hWF.id_eq hna
  have hib_id : nb.id = ib := hWF.id_eq hnb
  have hic_id : nc.id = ic := hWF.id_eq hnc
  have hchnd : ([ia, ib, ic] : List Nat).Nodup := by
    rw [← hch]
    exact hWF.children_nodup hdn
  have hab : ia ≠ ib := by
    intro hcon
    rw [hcon] at hchnd
    simp at hchnd
  have hac : ia ≠ ic := by
    intro hcon
    rw [hcon] at hchnd
    simp at hchnd
  have h_old : old_leaf_of a ino = [(ia, na.payload), (ib, nb.payload), (ic, nc.payload)] := by
    rw [old_leaf_of_eq hdn, hch]
    simp [List.filterMap_cons, hna, hnb, hnc, hia_id, hib_id, hic_id]
  have hBB' : kubeFileNodeEq nb.payload Bd = true := by
    rw [kubeFileNodeEq_symm]
    exact hBB
  have hCC' : kubeFileNodeEq nc.payload Cd = true := by
    rw [kubeFileNodeEq_symm]
    exact hCC
  have hdiff : reconcile_diff d (old_leaf_of a ino) = ([Dd], [ia]) := by
    rw [h_old, hd]
    unfold reconcile_diff
    simp [List.filter_cons, List.any_cons, hBB', hCC', hAD, hBD, hCD, hBA, hCA, hDA, hBB, hCC]
  have hsync := sync_run client apis a st ino dn d hWF hdn hleafs
  rw [hdiff] at hsync
  obtain ⟨cn0, hcn0, hpar0⟩ := hWF.child_lookup hdn hia_mem
  have hpar : na.parent_id = some ino := by
    rw [hcn0] at hna
    cases hna
    exact hpar0
  obtain ⟨l, hdfs, hpre, hndl, hmeml⟩ := tree_walk_dfs_of_WF hWF hna
  obtain ⟨hret, hcntd, hlookd⟩ := delete_node_run hna hdfs
  have hWFd : WF (a.delete_node ia).1 := delete_preserves_WF hWF hna
  have hino_lt : ino < ia := hWF.child_gt hdn hia_mem
  have hino_nl : ino ∉ l := by
    intro hcon
    have := Desc.le hWF ((hmeml ino).1 hcon)
    omega
  have hd_ino : mlookup (a.delete_node ia).1.map ino =
      some { dn with children_ids := [ib, ic] } := by
    rw [hlookd ino, if_neg hino_nl, if_pos hpar, hdn]
    simp only [Option.map_some']
    congr 1
    rw [hch]
    have h1 : (ia != ia) = false := by simp
    have h2 : (ib != ia) = true := by simp [Ne.symm hab]
    have h3 : (ic != ia) = true := by simp [Ne.symm hac]
    simp [List.filter_cons, h1, h2, h3]
  have hfoldform : ([Dd] : List KubeFileNode).foldl
      (fun acc n => (acc.add n (some ino)).1)
      (([ia] : List Nat).foldl (fun acc i => (acc.delete_node i).1) a) =
      (((a.delete_node ia).1).add Dd (some ino)).1 := by
    simp
  rw [hfoldform] at hsync
  have hcd : (a.delete_node ia).1.counter = a.counter := hcntd
  have hne2 : some ino ≠ some ((a.delete_node ia).1.counter) := by
    rw [hcd]
    intro hcon
    have := Option.some.inj hcon
    have := hWF.key_lt hdn
    omega
  have hlookA := add_lookup (a.delete_node ia).1 Dd (some ino) hne2
  refine ⟨hdiff, l, (((a.delete_node ia).1).add Dd (some ino)).1, hdfs, hmeml, hsync,
    ?_, ?_, ?_, ?_, ?_, ?_, ?_⟩
  · intro x hx
    have hxd : Desc a.map ia x := (hmeml x).1 hx
    have hx_keys : (mlookup a.map x).isSome := Desc.isSome hWF hxd (by simp [hna])
    have hx_lt : x < a.counter := by
      cases hxx : mlookup a.map x with
      | none =>
        rw [hxx] at hx_keys
        simp at hx_keys
      | some nx => exact hWF.key_lt hxx
    have hx_ne_c : ¬ x = (a.delete_node ia).1.counter := by
      rw [hcd]
      omega
    have hx_ne_ino : ¬ (some ino = some x) := by
      intro hcon
      rw [← Option.some.inj hcon] at hx
      exact hino_nl hx
    rw [hlookA x, if_neg hx_ne_c, if_neg hx_ne_ino, hlookd x]
    simp [hx]
  · have hcc : a.counter = (a.delete_node ia).1.counter := hcd.symm
    rw [hcc, hlookA ((a.delete_node ia).1.counter), if_pos rfl, ← hcc]
  · have hib_lt : ib < a.counter := hWF.key_lt hnb
    have h1 : ¬ ib = (a.delete_node ia).1.counter := by
      rw [hcd]
      omega
    have h2 : ¬ (some ino = some ib) := by
      intro hcon
      have h3 := hWF.child_gt hdn hib_mem
      have := Option.some.inj hcon
      omega
    rw [hlookA ib, if_neg h1, if_neg h2, hlookd ib]
    have hibl : ib ∉ l := by
      intro hcon
      exact siblings_no_common_desc hWF hdn hia_mem hib_mem hab ib
        ((hmeml ib).1 hcon) (Desc.refl ib)
    rw [if_neg hibl]
    have h4 : ¬ (na.parent_id = some ib) := by
      rw [hpar]
      intro hcon
      exact h2 hcon
    rw [if_neg h4]
    exact hnb
  · have hic_lt : ic < a.counter := hWF.key_lt hnc
    have h1 : ¬ ic = (a.delete_node ia).1.counter := by
      rw [hcd]
      omega
    have h2 : ¬ (some ino = some ic) := by
      intro hcon
      have h3 := hWF.child_gt hdn hic_mem
      have := Option.some.inj hcon
      omega
    rw [hlookA ic, if_neg h1, if_neg h2, hlookd ic]
    have hicl : ic ∉ l := by
      intro hcon
      exact siblings_no_common_desc hWF hdn hia_mem hic_mem hac ic
        ((hmeml ic).1 hcon) (Desc.refl ic)
    rw [if_neg hicl]
    have h4 : ¬ (na.parent_id = some ic) := by
      rw [hpar]
      intro hcon
      exact h2 hcon
    rw [if_neg h4]
    exact hnc
  · have h1 : ¬ ino = (a.delete_node ia).1.counter := by
      rw [hcd]
      have := hWF.key_lt hdn
      omega
    rw [hlookA ino, if_neg h1, if_pos rfl, hd_ino]
    simp only [Option.map_some']
    rw [hcd]
    rfl
  · intro x hxl hxino hxc
    have h1 : ¬ x = (a.delete_node ia).1.counter := by
      rw [hcd]
      exact hxc
    have h2 : ¬ (some ino = some x) := by
      intro hcon
      exact hxino (Option.some.inj hcon).symm
    rw [hlookA x, if_neg h1, if_neg h2, hlookd x, if_neg hxl]
    have h3 : ¬ (na.parent_id = some x) := by
      rw [hpar]
      exact h2
    rw [if_neg h3]
  · rw [add_counter, hcd]

end KubeFS

namespace KubeFS

open Arena KubeVirtualFs

/-- Witness for C4: reconciling the ApiResourceDirectory of `c4Arena`
against a provider that now lists only the new Pod removes the stale file
(inode 3), adds one node for the new Pod (inode 6), and keeps the virtual
entries at inodes 4 and 5. -/
theorem claim_C4_witness :
    WF c4Arena ∧
    KubeVirtualFs.get_leafs_for_node ⟨c4Client, c4Apis, c4Arena, 0⟩
        ⟨2, some 1, [3, 4, 5],
          KubeFileNode.ApiResourceDirectory ⟨some "default", "", "v1", "Pod", "pods"⟩⟩ =
      Except.ok [KubeFileNode.Virtual ".", KubeFileNode.Virtual "..",
        KubeFileNode.ResourceFile ⟨some "default", "u-new", "new", "Pod"⟩] ∧
    (reconcile_diff
        [KubeFileNode.Virtual ".", KubeFileNode.Virtual "..",
          KubeFileNode.ResourceFile ⟨some "default", "u-new", "new", "Pod"⟩]
        (old_leaf_of c4Arena 2) =
      ([KubeFileNode.ResourceFile ⟨some "default", "u-new", "new", "Pod"⟩], [3]) ∧
    ∃ l a2, c4Arena.tree_walk_dfs 3 = some l ∧ (∀ x, x ∈ l ↔ Desc c4Arena.map 3 x) ∧
      KubeVirtualFs.sync_leafs_for_inode ⟨c4Client, c4Apis, c4Arena, 0⟩ 2 =
        Except.ok ⟨c4Client, c4Apis, a2, 0⟩ ∧
      (∀ x ∈ l, mlookup a2.map x = none) ∧
      mlookup a2.map 6 =
        some ⟨6, some 2, [], KubeFileNode.ResourceFile ⟨some "default", "u-new", "new", "Pod"⟩⟩ ∧
      mlookup a2.map 4 = some ⟨4, some 2, [], KubeFileNode.Virtual "."⟩ ∧
      mlookup a2.map 5 = some ⟨5, some 2, [], KubeFileNode.Virtual ".."⟩ ∧
      mlookup a2.map 2 = some ⟨2, some 1, [4, 5, 6],
        KubeFileNode.ApiResourceDirectory ⟨some "default", "", "v1", "Pod", "pods"⟩⟩ ∧
      (∀ x, x ∉ l → x ≠ 2 → x ≠ 6 → mlookup a2.map x = mlookup c4Arena.map x) ∧
      a2.counter = 6 + 1) :=
  ⟨by decide, by rfl,
    claim_C4 c4Client c4Apis c4Arena 0 2 3 4 5
      ⟨2, some 1, [3, 4, 5],
        KubeFileNode.ApiResourceDirectory ⟨some "default", "", "v1", "Pod", "pods"⟩⟩
      ⟨3, some 2, [], KubeFileNode.ResourceFile ⟨some "default", "u-old", "old", "Pod"⟩⟩
      ⟨4, some 2, [], KubeFileNode.Virtual "."⟩
      ⟨5, some 2, [], KubeFileNode.Virtual ".."⟩
      [KubeFileNode.Virtual ".", KubeFileNode.Virtual "..",
        KubeFileNode.ResourceFile ⟨some "default", "u-new", "new", "Pod"⟩]
      (KubeFileNode.Virtual ".") (KubeFileNode.Virtual "..")
      (KubeFileNode.ResourceFile ⟨some "default", "u-new", "new", "Pod"⟩)
      (by decide) (by decide) rfl (by decide) (by decide) (by decide) (by rfl) rfl
      (by decide) (by decide) (by decide) (by decide) (by decide) (by decide)
      (by decide) (by decide)⟩

end KubeFS

namespace KubeFS

open Arena KubeVirtualFs

theorem filterMap_resolve_fst {T : Type} (m : NodeMap T) :
    ∀ (l : List Nat), (∀ c ∈ l, ∃ cn : ArenaNode T, mlookup m c = some cn ∧ cn.id = c) →
      ((l.filterMap (fun c => (mlookup m c).map (fun n => (n.id, n.payload)))).map
        Prod.fst) = l := by
  intro l
  induction l with
  | nil => intro _; rfl
  | cons c cs ih =>
    intro h
    obtain ⟨cn, hcn, hid⟩ := h c (List.mem_cons_self c cs)
    have ih2 := ih (fun x hx => h x (List.mem_cons_of_mem c hx))
    simp [List.filterMap_cons, hcn, hid, ih2]

theorem old_leaf_fsts {a : Arena KubeFileNode} {id : Nat} {dn : ArenaNode KubeFileNode}
    (hWF : WF a) (hdn : mlookup a.map id = some dn) :
    (old_leaf_of a id).map Prod.fst = dn.children_ids := by
  rw [old_leaf_of_eq hdn]
  apply filterMap_resolve_fst
  intro c hc
  obtain ⟨cn, hcn, _⟩ := hWF.child_lookup hdn hc
  exact ⟨cn, hcn, hWF.id_eq hcn⟩

theorem old_leaf_fst_inj {a : Arena KubeFileNode} {id : Nat} {dn : ArenaNode KubeFileNode}
    (hWF : WF a) (hdn : mlookup a.map id = some dn) :
    ∀ pr ∈ old_leaf_of a id, ∀ pr' ∈ old_leaf_of a id, pr.1 = pr'.1 → pr = pr' := by
  have hnd : ((old_leaf_of a id).map Prod.fst).Nodup := by
    rw [old_leaf_fsts hWF hdn]
    exact hWF.children_nodup hdn
  intro pr hpr pr' hpr' heq
  exact List.inj_on_of_nodup_map hnd hpr hpr' heq

end KubeFS

/-! ## Claim theorem: reconciliation idempotence (C3) -/

namespace KubeFS

open Arena KubeVirtualFs

/-- C3: reconciliation is idempotent when the external data is unchanged.
If one `sync_leafs_for_inode` succeeds (producing `vfs1`) then running it
again computes an empty diff (no `to_add`, no `to_remove`) and returns the
state `vfs1` itself unchanged -- in particular it performs no deletions and
no additions and every child keeps the identical NodeId (the whole arena,
ids included, is preserved).  The provider is deterministic here because
the modelled client is a fixed record of responses (mirroring the source's
response cache). -/
theorem claim_C3 (client : KubeClient) (apis : List (ApiResource × ApiCapabilities))
    (a : Arena KubeFileNode) (st ino : Nat) (vfs1 : KubeVirtualFs)
    (hWF : WF a)
    (h1 : KubeVirtualFs.sync_leafs_for_inode ⟨client, apis, a, st⟩ ino = Except.ok vfs1) :
    KubeVirtualFs.sync_leafs_for_inode vfs1 ino = Except.ok vfs1 ∧
    (∀ dnx dx, mlookup vfs1.arena_two.map ino = some dnx →
      KubeVirtualFs.get_leafs_for_node vfs1 dnx = Except.ok dx →
      reconcile_diff dx (old_leaf_of vfs1.arena_two ino) = ([], [])) := by
  by_cases h0 : ino = 0
  · exfalso
    rw [h0] at h1
    unfold KubeVirtualFs.sync_leafs_for_inode NodeId.new at h1
    simp at h1
  cases hdn : mlookup a.map ino with
  | none =>
    have h2 := sync_run_missing client apis a st ino h0 hdn
    rw [h2] at h1
    have hv : vfs1 = ⟨client, apis, a, st⟩ := (Except.ok.inj h1).symm
    constructor
    · rw [hv]
      exact sync_run_missing client apis a st ino h0 hdn
    · intro dnx dx hdnx _
      rw [hv] at hdnx
      dsimp only at hdnx
      rw [hdn] at hdnx
      cases hdnx
  | some dn =>
    cases hlf : KubeVirtualFs.get_leafs_for_node ⟨client, apis, a, st⟩ dn with
    | error e =>
      exfalso
      have hnew : NodeId.new ino = Except.ok ino := by
        unfold NodeId.new
        simp [h0]
      have hget : a.get ino = some dn := hdn
      unfold KubeVirtualFs.sync_leafs_for_inode at h1
      simp only [hnew, hget, hlf] at h1
      exact Except.noConfusion h1
    | ok d =>
      have hrun := sync_run client apis a st ino dn d hWF hdn hlf
      rw [hrun] at h1
      set old := old_leaf_of a ino with hold_def
      set addN := (reconcile_diff d old).1 with haddN_def
      set remN := (reconcile_diff d old).2 with hremN_def
      set a1 := remN.foldl (fun acc i => (acc.delete_node i).1) a with ha1_def
      set a2 := addN.foldl (fun acc n => (acc.add n (some ino)).1) a1 with ha2_def
      have hv : vfs1 = ⟨client, apis, a2, st⟩ := (Except.ok.inj h1).symm
      have haddN : addN = d.filter (fun n => !(old.any (fun o => kubeFileNodeEq o.2 n))) := rfl
      have hremN : remN =
          (old.filter (fun o => !(d.any (fun n => kubeFileNodeEq n o.2)))).map Prod.fst := rfl
      have hremsub : ∀ c ∈ remN, c ∈ dn.children_ids := by
        intro c hc
        rw [hremN] at hc
        obtain ⟨pr, hpr, hpr1⟩ := List.mem_map.1 hc
        have hpr2 : pr ∈ old := List.mem_of_mem_filter hpr
        have h3 := (old_leaf_mem hWF hdn pr hpr2).1
        rw [hpr1] at h3
        exact h3
      have hremnd : remN.Nodup := by
        rw [hremN]
        have hsl : (old.filter (fun o => !(d.any (fun n => kubeFileNodeEq n o.2)))).Sublist old :=
          List.filter_sublist old
        have hsl2 := hsl.map Prod.fst
        rw [old_leaf_fsts hWF hdn] at hsl2
        exact (hWF.children_nodup hdn).sublist hsl2
      have F2 := delete_fold remN a ino dn hWF hdn hremsub hremnd
      rw [← ha1_def] at F2
      have hWF1 : WF a1 := F2.1
      have hcnt1 : a1.counter = a.counter := F2.2.1
      set dn1node : ArenaNode KubeFileNode := { dn with children_ids := dn.children_ids.filter (fun c => decide (c ∉ remN)) } with hdn1node_def
      have hdn1 : mlookup a1.map ino = some dn1node := F2.2.2.1
      have hsurv : ∀ x, (∀ c ∈ remN, ¬ Desc a.map c x) → x ≠ ino →
          mlookup a1.map x = mlookup a.map x := F2.2.2.2.1
      have F3 := add_fold addN a1 ino dn1node hWF1 hdn1
      rw [← ha2_def] at F3
      have hWF2 : WF a2 := F3.1
      set dn2node : ArenaNode KubeFileNode := { dn1node with children_ids := dn1node.children_ids ++ List.range' a1.counter addN.length } with hdn2node_def
      have hdn2 : mlookup a2.map ino = some dn2node := F3.2.2.1
      have hsurv2 : ∀ x, x ≠ ino → x < a1.counter →
          mlookup a2.map x = mlookup a1.map x := F3.2.2.2.1
      have hnew2 : ∀ j (hj : j < addN.length),
          mlookup a2.map (a1.counter + j) =
            some ⟨a1.counter + j, some ino, [], addN.get ⟨j, hj⟩⟩ := F3.2.2.2.2
      have hino_lt : ino < a.counter := hWF.key_lt hdn
      have hch2 : dn2node.children_ids =
          dn.children_ids.filter (fun c => decide (c ∉ remN)) ++
            List.range' a1.counter addN.length := by
        rw [hdn2node_def, hdn1node_def]
      have hkept : ∀ c, c ∈ dn.children_ids → c ∉ remN →
          mlookup a2.map c = mlookup a.map c := by
        intro c hcmem hcnot
        obtain ⟨cn, hcn, _⟩ := hWF.child_lookup hdn hcmem
        have hlt : c < a.counter := hWF.key_lt hcn
        have hne : c ≠ ino := by
          have := hWF.child_gt hdn hcmem
          omega
        have hnodesc : ∀ r ∈ remN, ¬ Desc a.map r c := by
          intro r hr hdesc
          have hrne : r ≠ c := by
            intro hcon
            rw [hcon] at hr
            exact hcnot hr
          exact siblings_no_common_desc hWF hdn (hremsub r hr) hcmem hrne c hdesc (Desc.refl c)
        rw [hsurv2 c hne (by omega), hsurv c hnodesc hne]
      have hd_match : ∀ n ∈ d, ∃ pr ∈ old_leaf_of a2 ino, kubeFileNodeEq pr.2 n = true := by
        intro n hn
        by_cases hm : old.any (fun o => kubeFileNodeEq o.2 n) = true
        · obtain ⟨o, ho, hko⟩ := List.any_eq_true.1 hm
          obtain ⟨hmemc, cn, hcn, hpl⟩ := old_leaf_mem hWF hdn o ho
          have hnotrem : o.1 ∉ remN := by
            intro hcon
            rw [hremN] at hcon
            obtain ⟨pr, hpr, hpr1⟩ := List.mem_map.1 hcon
            have hpreq : pr = o :=
              old_leaf_fst_inj hWF hdn pr (List.mem_of_mem_filter hpr) o ho hpr1
            rw [hpreq] at hpr
            have hpred := List.of_mem_filter hpr
            have hany : d.any (fun n2 => kubeFileNodeEq n2 o.2) = true := by
              apply List.any_eq_true.2
              refine ⟨n, hn, ?_⟩
              rw [kubeFileNodeEq_symm]
              exact hko
            rw [hany] at hpred
            simp at hpred
          have hcmem2 : o.1 ∈ dn2node.children_ids := by
            rw [hch2]
            simp only [List.mem_append]
            left
            simp [List.mem_filter, hmemc, hnotrem]
          obtain ⟨cn2, hcn2, hpair⟩ := old_leaf_mem_rev hWF2 hdn2 o.1 hcmem2
          rw [hkept o.1 hmemc hnotrem, hcn] at hcn2
          refine ⟨(o.1, cn2.payload), hpair, ?_⟩
          have hceq : cn = cn2 := Option.some.inj hcn2
          show kubeFileNodeEq cn2.payload n = true
          rw [← hceq, hpl]
          exact hko
        · have hnmem : n ∈ addN := by
            rw [haddN]
            apply List.mem_filter.2
            refine ⟨hn, ?_⟩
            simp only [Bool.not_eq_true] at hm
            rw [hm]
            rfl
          obtain ⟨j, hget⟩ := List.mem_iff_get.1 hnmem
          have hcmem2 : a1.counter + j.1 ∈ dn2node.children_ids := by
            rw [hch2]
            simp only [List.mem_append]
            right
            apply List.mem_range'_1.2
            constructor
            · omega
            · have := j.2
              omega
          obtain ⟨cn2, hcn2, hpair⟩ := old_leaf_mem_rev hWF2 hdn2 (a1.counter + j.1) hcmem2
          rw [hnew2 j.1 j.2] at hcn2
          have hcn2e : cn2 = ⟨a1.counter + j.1, some ino, [], addN.get j⟩ :=
            (Option.some.inj hcn2).symm
          refine ⟨(a1.counter + j.1, cn2.payload), hpair, ?_⟩
          rw [hcn2e]
          show kubeFileNodeEq (addN.get j) n = true
          rw [hget]
          exact kubeFileNodeEq_refl n
      have hold2_match : ∀ pr ∈ old_leaf_of a2 ino,
          d.any (fun n => kubeFileNodeEq n pr.2) = true := by
        intro pr hpr
        obtain ⟨hmem2, cn2, hcn2, hpl2⟩ := old_leaf_mem hWF2 hdn2 pr hpr
        rw [hch2] at hmem2
        simp only [List.mem_append] at hmem2
        rcases hmem2 with hleft | hright
        · have hcmem : pr.1 ∈ dn.children_ids := (List.mem_filter.1 hleft).1
          have hcnot : pr.1 ∉ remN := by
            have := (List.mem_filter.1 hleft).2
            simpa using this
          rw [hkept pr.1 hcmem hcnot] at hcn2
          obtain ⟨cn, hcn, hpair⟩ := old_leaf_mem_rev hWF hdn pr.1 hcmem
          rw [hcn] at hcn2
          have hcneq : cn = cn2 := Option.some.inj hcn2
          cases hany : d.any (fun n => kubeFileNodeEq n pr.2) with
          | true => rfl
          | false =>
            exfalso
            apply hcnot
            rw [hremN]
            apply List.mem_map.2
            refine ⟨(pr.1, cn.payload), ?_, rfl⟩
            apply List.mem_filter.2
            refine ⟨hpair, ?_⟩
            have hpay : cn.payload = pr.2 := by
              rw [hcneq]
              exact hpl2
            rw [hpay, hany]
            rfl
        · obtain ⟨hle, hlt⟩ := List.mem_range'_1.1 hright
          have hj : pr.1 - a1.counter < addN.length := by omega
          have hform : a1.counter + (pr.1 - a1.counter) = pr.1 := by omega
          have h5 := hnew2 (pr.1 - a1.counter) hj
          rw [hform] at h5
          rw [h5] at hcn2
          have hcn2e : cn2 = ⟨pr.1, some ino, [], addN.get ⟨pr.1 - a1.counter, hj⟩⟩ :=
            (Option.some.inj hcn2).symm
          have hpl3 : pr.2 = addN.get ⟨pr.1 - a1.counter, hj⟩ := by
            rw [← hpl2, hcn2e]
          apply List.any_eq_true.2
          refine ⟨pr.2, ?_, ?_⟩
          · rw [hpl3]
            have hmemadd : addN.get ⟨pr.1 - a1.counter, hj⟩ ∈ addN := List.get_mem _ _ _
            have hsub : addN ⊆ d := by
              rw [haddN]
              intro x hx
              exact List.mem_of_mem_filter hx
            exact hsub hmemadd
          · exact kubeFileNodeEq_refl pr.2
      have hdiff2 : reconcile_diff d (old_leaf_of a2 ino) = ([], []) := by
        have hA : d.filter
            (fun n => !((old_leaf_of a2 ino).any (fun o => kubeFileNodeEq o.2 n))) = [] := by
          apply List.filter_eq_nil_iff.2
          intro n hn
          obtain ⟨pr, hpr, hk⟩ := hd_match n hn
          have hany : (old_leaf_of a2 ino).any (fun o => kubeFileNodeEq o.2 n) = true :=
            List.any_eq_true.2 ⟨pr, hpr, hk⟩
          rw [hany]
          simp
        have hB : (old_leaf_of a2 ino).filter
            (fun o => !(d.any (fun n => kubeFileNodeEq n o.2))) = [] := by
          apply List.filter_eq_nil_iff.2
          intro pr hpr
          rw [hold2_match pr hpr]
          simp
        unfold reconcile_diff
        rw [hA, hB]
        rfl
      have hpl_dn2 : dn2node.payload = dn.payload := by
        rw [hdn2node_def, hdn1node_def]
      have hlf2 : KubeVirtualFs.get_leafs_for_node ⟨client, apis, a2, st⟩ dn2node =
          Except.ok d := by
        rw [get_leafs_payload_only client apis a2 a st st dn2node dn hpl_dn2]
        exact hlf
      have hrun2 := sync_run client apis a2 st ino dn2node d hWF2 hdn2 hlf2
      constructor
      · rw [hv, hrun2, hdiff2]
        rfl
      · intro dnx dx hdnx hlfx
        rw [hv] at hdnx hlfx ⊢
        dsimp only at hdnx hlfx ⊢
        rw [hdn2] at hdnx
        have hdneq : dnx = dn2node := (Option.some.inj hdnx).symm
        rw [hdneq] at hlfx
        rw [hlf2] at hlfx
        have hdx : dx = d := (Except.ok.inj hlfx).symm
        rw [hdx]
        exact hdiff2

end KubeFS

namespace KubeFS

open Arena KubeVirtualFs

/-- Witness for C3: after populating the Context root from a provider with
one namespace, reconciling again is a no-op returning the identical state
with an empty diff. -/
theorem claim_C3_witness :
    WF c3ArenaInit ∧
    KubeVirtualFs.sync_leafs_for_inode ⟨c3Client, [], c3ArenaInit, 0⟩ 1 =
      Except.ok ⟨c3Client, [], c3ArenaAfter, 0⟩ ∧
    (KubeVirtualFs.sync_leafs_for_inode
        (⟨c3Client, [], c3ArenaAfter, 0⟩ : KubeVirtualFs) 1 =
        Except.ok ⟨c3Client, [], c3ArenaAfter, 0⟩ ∧
      (∀ dnx dx,
        mlookup (⟨c3Client, [], c3ArenaAfter, 0⟩ : KubeVirtualFs).arena_two.map 1 = some dnx →
        KubeVirtualFs.get_leafs_for_node ⟨c3Client, [], c3ArenaAfter, 0⟩ dnx = Except.ok dx →
        reconcile_diff dx
          (old_leaf_of (⟨c3Client, [], c3ArenaAfter, 0⟩ : KubeVirtualFs).arena_two 1) =
          ([], []))) :=
  ⟨by decide, by rfl,
    claim_C3 c3Client [] c3ArenaInit 0 1 ⟨c3Client, [], c3ArenaAfter, 0⟩ (by decide) (by rfl)⟩

end KubeFS
